import Mathlib

/-!
# The log parser and the ranking of `main.go`

A shallow embedding of `parseLogFile`, `contains` and `generateRanking`.

* A Go `string` is a sequence of bytes (`Str`); `strings.Contains` and `strings.Split` work on
  bytes, as in Go.
* A Go `map[string]int` is a reference to a map object.  Map objects live in a `Heap`, a `Game`
  value holds the addresses of its two maps, and copying a `Game` copies the two addresses, not
  the map objects.  `TotalKills` (an `int`) and `Players` (a slice header) are copied by value.
* Go's `int` is modelled by `Int`.  In `parseLogFile` every counter is bounded by the number
  of lines read, so the model is exact for inputs of fewer than `2 ^ 63` lines.  In
  `generateRanking`, whose argument is any collection, the sum is reduced to 64 bits as Go's
  `int` is (`wrapInt`).
* An index expression that is out of range panics in Go; here it yields `none`.
* `parseLogFile` is modelled on the sequence of lines the scanner delivers.
  `parseLogFileWithErr` adds the scanner: from the lines of the file it gives the lines that
  are delivered and the value of `scanner.Err()`.  Opening the file and failures of the
  operating system while reading are outside the model.
-/

namespace QuakeLog

/-! ## Strings -/

/-- A Go `string`: a sequence of bytes. -/
abbrev Str := List UInt8

/-- The bytes of a string literal of the source (its UTF-8 encoding). -/
def lit (s : String) : Str := s.data.flatMap String.utf8EncodeChar

/-- Go's `strings.HasPrefix(s, p)`. -/
def strings.HasPrefix : Str → Str → Bool
  | _, [] => true
  | [], _ :: _ => false
  | a :: s, b :: p => a == b && strings.HasPrefix s p

/-- Go's `strings.Contains(s, substr)`: `substr` occurs at some position of `s`. -/
def strings.Contains : Str → Str → Bool
  | [], substr => strings.HasPrefix [] substr
  | c :: s, substr => strings.HasPrefix (c :: s) substr || strings.Contains s substr

/-- The scan of `strings.Split`: `cur` holds (reversed) the bytes of the piece being read and
`skip` the number of bytes of a matched separator that are still to be passed over. -/
def strings.splitLoop (sep : Str) : Str → Nat → Str → List Str
  | [], _, cur => [cur.reverse]
  | _ :: s, skip + 1, cur => strings.splitLoop sep s skip cur
  | c :: s, 0, cur =>
    if strings.HasPrefix (c :: s) sep then
      cur.reverse :: strings.splitLoop sep s (sep.length - 1) []
    else strings.splitLoop sep s 0 (c :: cur)

/-- Go's `strings.Split(s, sep)` for a non-empty separator (the source passes the literals
`\`, `: ` and a space): the pieces of `s` between the successive non-overlapping occurrences
of `sep`, found from left to right. -/
def strings.Split (s sep : Str) : List Str := strings.splitLoop sep s 0 []

/-- The source's `contains(slice, item)`. -/
def contains : List Str → Str → Bool
  | [], _ => false
  | s :: slice, item => if s = item then true else contains slice item

/-- The byte of the decimal digit `d`. -/
def digitByte (d : Nat) : UInt8 := UInt8.ofNat (48 + d)

/-- The decimal digits of `n` in front of `acc`, most significant first; `fuel` bounds the
number of digits. -/
def fmtDigits : Nat → Nat → Str → Str
  | 0, _, acc => acc
  | fuel + 1, n, acc =>
    if n / 10 = 0 then digitByte (n % 10) :: acc
    else fmtDigits fuel (n / 10) (digitByte (n % 10) :: acc)

/-- The verb `%d` of `fmt.Sprintf` applied to an `int`. -/
def fmtInt (n : Int) : Str :=
  if n < 0 then lit "-" ++ fmtDigits (n.natAbs + 1) n.natAbs []
  else fmtDigits (n.natAbs + 1) n.natAbs []

/-- The expression `fmt.Sprintf("game_%d", currentGameNumber)`. -/
def gameName (currentGameNumber : Int) : Str := lit "game_" ++ fmtInt currentGameNumber

/-- A Go index expression `xs[i]`: out of range, the program panics (`none`). -/
def index {α : Type} (xs : List α) (i : Int) : Option α :=
  if i < 0 then none else xs[i.toNat]?

/-! ## Data model -/

/-- A map object of type `map[string]int`. -/
abbrev GoMap := AList (fun _ : Str => Int)

/-- The read `m[k]`: the zero value when `k` is not a key. -/
def GoMap.get (m : GoMap) (k : Str) : Int := (m.lookup k).getD 0

/-- Map objects by address. -/
abbrev Heap := Nat → GoMap

/-- The read `m[k]` through the map reference `m`. -/
def Heap.read (heap : Heap) (m : Nat) (k : Str) : Int := (heap m).get k

/-- The assignment `m[k] = v` through the map reference `m`. -/
def Heap.write (heap : Heap) (m : Nat) (k : Str) (v : Int) : Heap :=
  Function.update heap m ((heap m).insert k v)

/-- The struct `Game`; `Kills` and `KillsByMeans` are map references. -/
structure Game where
  TotalKills : Int
  Players : List Str
  Kills : Nat
  KillsByMeans : Nat
  deriving DecidableEq

/-- The type `GameCollection`, a `map[string]Game`. -/
abbrev GameCollection := AList (fun _ : Str => Game)

/-- The struct `PlayerRank`. -/
structure PlayerRank where
  Name : Str
  Kills : Int
  deriving DecidableEq

/-- The variables of `parseLogFile` during the scan, and the heap of map objects.
`currentGame` is the struct the pointer `currentGame` points at (`none` for `nil`);
`nextAddr` is the address the next `make` returns. -/
structure ParseState where
  heap : Heap
  nextAddr : Nat
  games : GameCollection
  currentGame : Option Game
  currentGameNumber : Int

/-- The state before the first line: `games` empty, `currentGame` nil, counter zero. -/
def ParseState.init : ParseState where
  heap := fun _ => ∅
  nextAddr := 0
  games := ∅
  currentGame := none
  currentGameNumber := 0

/-! ## `parseLogFile` -/

/-- The body of `if strings.Contains(line, "InitGame:")`: the two maps are made, the new
struct is stored under `gameName`, and `currentGame` points at `temp`, a copy of the stored
struct (it holds the same two map references). -/
def initGame (st : ParseState) : ParseState :=
  let currentGameNumber := st.currentGameNumber + 1
  let game : Game :=
    { TotalKills := 0, Players := [], Kills := st.nextAddr, KillsByMeans := st.nextAddr + 1 }
  { heap := Function.update (Function.update st.heap st.nextAddr ∅) (st.nextAddr + 1) ∅
    nextAddr := st.nextAddr + 2
    games := st.games.insert (gameName currentGameNumber) game
    currentGame := some game
    currentGameNumber := currentGameNumber }

/-- The block `if strings.Contains(line, "ClientUserinfoChanged")`, on the struct `g` that
`currentGame` points at. -/
def playerBranch (heap : Heap) (g : Game) (line : Str) : Option (Heap × Game) :=
  if strings.Contains line (lit "ClientUserinfoChanged") then
    let fields := strings.Split line (lit "\\")
    if fields.length > 1 then do
      let playerName ← index fields 1
      if playerName ≠ [] then
        if !contains g.Players playerName then
          some (heap.write g.Kills playerName 0, { g with Players := g.Players ++ [playerName] })
        else some (heap, g)
      else some (heap, g)
    else some (heap, g)
  else some (heap, g)

/-- The block `if strings.Contains(line, "Kill:")`, on the struct `g` that `currentGame`
points at. -/
def killBranch (heap : Heap) (g : Game) (line : Str) : Option (Heap × Game) :=
  if strings.Contains line (lit "Kill:") then
    let parts := strings.Split line (lit ": ")
    if parts.length < 3 then some (heap, g)
    else do
      let killMessage ← index parts ((parts.length : Int) - 1)
      let killParts := strings.Split killMessage (lit " ")
      if killParts.length ≥ 4 then do
        let attacker ← index killParts 0
        let victim ← index killParts 2
        let deathCause ← index killParts ((killParts.length : Int) - 1)
        let heap := heap.write g.KillsByMeans deathCause (heap.read g.KillsByMeans deathCause + 1)
        let g := { g with TotalKills := g.TotalKills + 1 }
        if attacker = lit "<world>" then
          some (heap.write g.Kills victim (heap.read g.Kills victim - 1), g)
        else
          some (heap.write g.Kills attacker (heap.read g.Kills attacker + 1), g)
      else some (heap, g)
  else some (heap, g)

/-- One iteration of the scan loop of `parseLogFile`. -/
def processLine (st : ParseState) (line : Str) : Option ParseState :=
  let st := if strings.Contains line (lit "InitGame:") then initGame st else st
  match st.currentGame with
  | none => some st
  | some g => do
    let (heap, g) ← playerBranch st.heap g line
    let (heap, g) ← killBranch heap g line
    some { st with heap := heap, currentGame := some g }

/-- The scan loop of `parseLogFile` from the state `st`. -/
def scan (st : ParseState) : List Str → Option ParseState
  | [] => some st
  | line :: lines => (processLine st line).bind (fun st => scan st lines)

/-- The function `parseLogFile` on the lines of the file: the returned collection, with the
heap its map references point into; `none` when the scan panics. -/
def parseLogFile (lines : List Str) : Option (GameCollection × Heap) :=
  (scan ParseState.init lines).map (fun st => (st.games, st.heap))

/-- The constant `bufio.MaxScanTokenSize`, the size of the buffer of the scanner that
`bufio.NewScanner` makes. -/
def maxScanTokenSize : Nat := 64 * 1024

/-- The error `bufio.ErrTooLong` (`bufio.Scanner: token too long`), the value of
`scanner.Err()` after a line that does not fit the buffer. -/
inductive ScanError where
  | tooLong
  deriving DecidableEq

/-- The function `dropCR` of `bufio.ScanLines`: a carriage return at the end of the line is
dropped. -/
def dropCR (data : Str) : Str :=
  if data.getLast? = some 13 then data.dropLast else data

/-- The loop `for scanner.Scan()` on a file whose lines are `fileLines`, each without the
newline that ends it (a carriage return in front of the newline is part of the line): the
texts `scanner.Text()` yields, and the value of `scanner.Err()` after the loop.  A line is
delivered, without its final carriage return, when it fits the buffer together with its
newline; a line of `maxScanTokenSize` bytes or more ends the loop with `ErrTooLong`, and
neither it nor any later line is delivered. -/
def scanLines : List Str → List Str × Option ScanError
  | [] => ([], none)
  | raw :: rest =>
    if maxScanTokenSize ≤ raw.length then ([], some ScanError.tooLong)
    else (dropCR raw :: (scanLines rest).1, (scanLines rest).2)

/-- The function `parseLogFile` with both its results, on the lines of the file: the
collection `games` with its heap, and the error `scanner.Err()`; `none` when the scan
panics. -/
def parseLogFileWithErr (fileLines : List Str) :
    Option ((GameCollection × Heap) × Option ScanError) :=
  (parseLogFile (scanLines fileLines).1).map (fun r => (r, (scanLines fileLines).2))

/-! ## `generateRanking` -/

/-- The order in which a `range` statement visits the entries of a map is chosen by the Go
runtime.  A `RangeOrder` is such a choice: it rearranges the entries of the map it is given. -/
structure RangeOrder where
  visit : {α : Type} → List α → List α
  perm : ∀ {α : Type} (l : List α), (visit l).Perm l

/-- The range order that visits the entries as they are stored. -/
def RangeOrder.stored : RangeOrder where
  visit := fun l => l
  perm := fun l => List.Perm.refl l

/-- Go's `sort.Slice(xs, less)`: `xs` rearranged so that no element is `less` than an element
before it.  The order it leaves between elements that are not `less` than each other is not
specified; here an element is inserted in front of the first element that is not `less` than
it. -/
def sortSlice {α : Type} (less : α → α → Bool) (xs : List α) : List α :=
  xs.insertionSort (fun a b => less b a = false)

/-- The value of Go's `int` (64 bits, two's complement) for the exact result `n` of an
operation: `n` itself between `-2 ^ 63` and `2 ^ 63 - 1`, wrapped around otherwise. -/
def wrapInt (n : Int) : Int :=
  (n + 9223372036854775808) % 18446744073709551616 - 9223372036854775808

/-- The statement `totalKills[player] += kills`. -/
def addKills (totalKills : GoMap) (player : Str) (kills : Int) : GoMap :=
  totalKills.insert player (wrapInt (totalKills.get player + kills))

/-- The first loop of `generateRanking`: the map `totalKills` after ranging over the games
and, for each game, over its `Kills` map. -/
def accumulateKills (ro : RangeOrder) (heap : Heap) (games : GameCollection) : GoMap :=
  (ro.visit games.entries).foldl
    (fun totalKills game =>
      (ro.visit (heap game.2.Kills).entries).foldl
        (fun totalKills e => addKills totalKills e.1 e.2) totalKills)
    ∅

/-- The function `generateRanking`, on a collection and the heap its map references point
into, under the range order `ro`. -/
def generateRanking (ro : RangeOrder) (heap : Heap) (games : GameCollection) :
    List PlayerRank :=
  let totalKills := accumulateKills ro heap games
  let ranking := (ro.visit totalKills.entries).map (fun e => PlayerRank.mk e.1 e.2)
  sortSlice (fun a b => decide (a.Kills > b.Kills)) ranking

/-! ## Vocabulary of the specification -/

/-- The line carries the init marker: it contains `InitGame:`. -/
def isInit (line : Str) : Bool := strings.Contains line (lit "InitGame:")

/-- The line carries the player-info marker: it contains `ClientUserinfoChanged`. -/
def isPlayerInfo (line : Str) : Bool := strings.Contains line (lit "ClientUserinfoChanged")

/-- The name a player-info line announces: the second of the fields the line splits into at
its backslashes, when there is one and it is not empty. -/
def announced (line : Str) : Option Str :=
  if isPlayerInfo line then
    match strings.Split line (lit "\\") with
    | _ :: name :: _ => if name = [] then none else some name
    | _ => none
  else none

/-- The message segment of a line: the last of the segments it splits into at `: `. -/
def messageSegment (line : Str) : Str := (strings.Split line (lit ": ")).getLastD []

/-- The tokens of a line's message segment: the pieces it splits into at each space. -/
def messageTokens (line : Str) : List Str := strings.Split (messageSegment line) (lit " ")

/-- A kill event: attacker, victim and death cause. -/
structure KillEvent where
  attacker : Str
  victim : Str
  cause : Str
  deriving DecidableEq

/-- The kill event of a successfully parsed kill line: the line contains `Kill:`, splits at
`: ` into at least 3 segments, and its message segment has at least 4 tokens; the attacker
is token 0, the victim token 2 and the death cause the last token. -/
def killEvent (line : Str) : Option KillEvent :=
  if strings.Contains line (lit "Kill:") = true ∧ 3 ≤ (strings.Split line (lit ": ")).length
      ∧ 4 ≤ (messageTokens line).length then
    some { attacker := (messageTokens line).getD 0 [], victim := (messageTokens line).getD 2 [],
           cause := (messageTokens line).getLastD [] }
  else none

/-- The line is a successfully parsed kill line. -/
def isKill (line : Str) : Bool := (killEvent line).isSome

/-- The spans of the games of a sequence of lines, in order: a span runs from a line with the
init marker (inclusive) up to the next line with the init marker (exclusive). -/
def spans : List Str → List (List Str)
  | [] => []
  | line :: lines =>
    if isInit line then (line :: lines.takeWhile (fun l => !isInit l)) :: spans lines
    else spans lines

/-- The number of lines of `lines` that carry the init marker. -/
def initCount (lines : List Str) : Nat := (lines.filter isInit).length

/-- The number of successfully parsed kill lines of `lines`. -/
def killCount (lines : List Str) : Nat := (lines.filter isKill).length

/-- The number of successfully parsed kill lines of `lines` whose death cause is `c`. -/
def causeCount (lines : List Str) (c : Str) : Nat :=
  (lines.filter (fun l => (killEvent l).any (fun e => e.cause = c))).length

/-- The number of successfully parsed kill lines of `lines` whose attacker is `p`, other
than `<world>`. -/
def attackCount (lines : List Str) (p : Str) : Nat :=
  (lines.filter (fun l =>
    (killEvent l).any (fun e => e.attacker = p ∧ e.attacker ≠ lit "<world>"))).length

/-- The number of successfully parsed kill lines of `lines` whose attacker is `<world>` and
whose victim is `p`. -/
def worldDeathCount (lines : List Str) (p : Str) : Nat :=
  (lines.filter (fun l =>
    (killEvent l).any (fun e => e.attacker = lit "<world>" ∧ e.victim = p))).length

/-- The lines of `lines` from the first line that announces `p` on (that line included);
all of `lines` when no line announces `p`. -/
def sinceAnnounced (lines : List Str) (p : Str) : List Str :=
  if lines.any (fun l => announced l = some p) then
    lines.dropWhile (fun l => !decide (announced l = some p))
  else lines

/-! ## The current game as a value -/

/-- A game with the contents of its two maps. -/
structure GameView where
  TotalKills : Int
  Players : List Str
  Kills : GoMap
  KillsByMeans : GoMap
  deriving DecidableEq

/-- The struct `g`, its two maps read from the heap. -/
def Game.view (g : Game) (heap : Heap) : GameView :=
  { TotalKills := g.TotalKills, Players := g.Players, Kills := heap g.Kills,
    KillsByMeans := heap g.KillsByMeans }

/-- A game just made: no kills, no players, two empty maps. -/
def GameView.empty : GameView :=
  { TotalKills := 0, Players := [], Kills := ∅, KillsByMeans := ∅ }

/-- The effect of the player-info block of a line on the current game. -/
def GameView.player (v : GameView) (line : Str) : GameView :=
  match announced line with
  | none => v
  | some p =>
    if contains v.Players p then v
    else { v with Players := v.Players ++ [p], Kills := v.Kills.insert p 0 }

/-- The effect of the kill block of a line on the current game. -/
def GameView.kill (v : GameView) (line : Str) : GameView :=
  match killEvent line with
  | none => v
  | some e =>
    { v with
      TotalKills := v.TotalKills + 1
      KillsByMeans := v.KillsByMeans.insert e.cause (v.KillsByMeans.get e.cause + 1)
      Kills :=
        if e.attacker = lit "<world>" then v.Kills.insert e.victim (v.Kills.get e.victim - 1)
        else v.Kills.insert e.attacker (v.Kills.get e.attacker + 1) }

/-- The effect of a line without init marker on the current game. -/
def GameView.line (v : GameView) (line : Str) : GameView := (v.player line).kill line

/-- The current game after the lines of its span. -/
def GameView.ofSpan (span : List Str) : GameView := span.foldl GameView.line GameView.empty

/-! ## The blocks of the loop body in closed form -/

/-- What the player-info block leaves: the heap and the struct `currentGame` points at. -/
def playerEffect (heap : Heap) (g : Game) (line : Str) : Heap × Game :=
  match announced line with
  | none => (heap, g)
  | some p =>
    if contains g.Players p then (heap, g)
    else (heap.write g.Kills p 0, { g with Players := g.Players ++ [p] })

/-- What the kill block leaves: the heap and the struct `currentGame` points at. -/
def killEffect (heap : Heap) (g : Game) (line : Str) : Heap × Game :=
  match killEvent line with
  | none => (heap, g)
  | some e =>
    let heap1 := heap.write g.KillsByMeans e.cause (heap.read g.KillsByMeans e.cause + 1)
    if e.attacker = lit "<world>" then
      (heap1.write g.Kills e.victim (heap1.read g.Kills e.victim - 1),
        { g with TotalKills := g.TotalKills + 1 })
    else
      (heap1.write g.Kills e.attacker (heap1.read g.Kills e.attacker + 1),
        { g with TotalKills := g.TotalKills + 1 })

/-- What the two blocks leave, one after the other. -/
def lineEffect (heap : Heap) (g : Game) (line : Str) : Heap × Game :=
  killEffect (playerEffect heap g line).1 (playerEffect heap g line).2 line

/-- The state after the init block of a line. -/
def afterInit (st : ParseState) (line : Str) : ParseState :=
  if isInit line then initGame st else st

/-- The state after a line. -/
def afterLine (st : ParseState) (line : Str) : ParseState :=
  match (afterInit st line).currentGame with
  | none => afterInit st line
  | some g =>
    { afterInit st line with
      heap := (lineEffect (afterInit st line).heap g line).1
      currentGame := some (lineEffect (afterInit st line).heap g line).2 }

/-- The state after a sequence of lines. -/
def afterLines (st : ParseState) (lines : List Str) : ParseState := lines.foldl afterLine st

/-- The spans `sp` with the line `l` added at the end of the last of them. -/
def extendLast : List (List Str) → Str → List (List Str)
  | [], _ => []
  | [s], l => [s ++ [l]]
  | s :: t :: r, l => s :: extendLast (t :: r) l

/-- The entries of a map, as pairs of a key and its value. -/
def GoMap.pairs (m : GoMap) : List (Str × Int) := m.entries.map (fun e => (e.1, e.2))

/-! ## Inputs of the examples -/

/-- The three lines of the end-to-end example of the specification. -/
def exampleLog : List Str :=
  [lit "InitGame:", lit "ClientUserinfoChanged: 2 n\\Dono\\...",
    lit "22:00 Kill: 1022 2 22: <world> killed Dono by MOD_TRIGGER_HURT"]

/-- A game with one kill line. -/
def oneKillLog : List Str :=
  [lit "InitGame:", lit "22:00 Kill: 1022 2 22: <world> killed Dono by MOD_TRIGGER_HURT"]

/-- A game in which the same player-info line occurs twice. -/
def twiceAnnouncedLog : List Str :=
  [lit "InitGame:", lit "ClientUserinfoChanged: 2 n\\Dono\\...",
    lit "ClientUserinfoChanged: 2 n\\Dono\\..."]

/-- A game in which `Dono` kills before any line announces the name. -/
def killFirstLog : List Str :=
  [lit "InitGame:", lit "0:10 Kill: 2 3 7: Dono killed Zeh by MOD_ROCKET"]

/-- A game in which `Dono` kills and is announced afterwards. -/
def lateAnnouncedLog : List Str :=
  [lit "InitGame:", lit "0:10 Kill: 2 3 7: Dono killed Zeh by MOD_ROCKET",
    lit "ClientUserinfoChanged: 2 n\\Dono\\..."]

/-- A world kill of `Dono`, on a line with no other marker. -/
def worldKillLine : Str :=
  lit "22:00 Kill: 1022 2 22: <world> killed Dono by MOD_TRIGGER_HURT"

/-- A world kill of `Dono`, on a line that also carries the player-info marker and announces
`Dono`. -/
def announceAndWorldKillLine : Str :=
  lit "ClientUserinfoChanged: 2 n\\Dono\\ Kill: 1022 2 22: <world> killed Dono by MOD_TRIGGER_HURT"

/-- A world kill of `Dono`, on a line that also carries the init marker. -/
def initAndWorldKillLine : Str :=
  lit "InitGame: Kill: 1022 2 22: <world> killed Dono by MOD_TRIGGER_HURT"

/-- A kill line whose message segment has three tokens. -/
def shortKillLine : Str := lit "22:00 Kill: 1022 2 22: <world> killed Dono"

/-- A heap with the `Kills` maps of two games: `Dono: -1`, and `Dono: 3` with `Zeh: 1`. -/
def twoGamesHeap : Heap :=
  Heap.write (Heap.write (Heap.write (fun _ => ∅) 0 (lit "Dono") (-1)) 2 (lit "Dono") 3) 2
    (lit "Zeh") 1

/-- A collection of two games whose `Kills` maps are at the addresses 0 and 2. -/
def twoGames : GameCollection :=
  ((∅ : GameCollection).insert (lit "game_1")
    { TotalKills := 0, Players := [], Kills := 0, KillsByMeans := 1 }).insert (lit "game_2")
    { TotalKills := 0, Players := [], Kills := 2, KillsByMeans := 3 }

/-! ## Auxiliary notions of the proofs -/

/-- The struct `currentGame` points at while the game of number `n` runs through `span`. -/
def currentOf (n : Nat) (span : List Str) : Game :=
  { TotalKills := (GameView.ofSpan span).TotalKills, Players := (GameView.ofSpan span).Players,
    Kills := 2 * (n - 1), KillsByMeans := 2 * (n - 1) + 1 }

/-- The struct stored in the collection for the game of index `i`: no kills, no players, and
the references to the two maps made for it. -/
def storedOf (i : Nat) : Game :=
  { TotalKills := 0, Players := [], Kills := 2 * i, KillsByMeans := 2 * i + 1 }

/-- The description of the parser state after the lines `L`. -/
structure Inv (L : List Str) (st : ParseState) : Prop where
  number : st.currentGameNumber = (initCount L : Int)
  next : st.nextAddr = 2 * initCount L
  keys : st.games.keys
    = ((List.range (initCount L)).map (fun i : Nat => gameName ((i : Int) + 1))).reverse
  stored : ∀ i, i < initCount L → st.games.lookup (gameName ((i : Int) + 1)) = some (storedOf i)
  current : st.currentGame = (spans L).getLast?.map (currentOf (initCount L))
  maps : ∀ i S, (spans L)[i]? = some S →
    st.heap (2 * i) = (GameView.ofSpan S).Kills
      ∧ st.heap (2 * i + 1) = (GameView.ofSpan S).KillsByMeans

/-- The sum of the values of a map. -/
def GoMap.total (m : GoMap) : Int := (m.entries.map (fun e => e.2)).sum

/-- The kills of `p` less the deaths of `p` by the world, over the kill lines of `lines`. -/
def netKills (lines : List Str) (p : Str) : Int :=
  (attackCount lines p : Int) - (worldDeathCount lines p : Int)

/-- The sum of the values that the entries `l` give under the key `name`. -/
def keySum (l : List (Sigma (fun _ : Str => Int))) (name : Str) : Int :=
  ((l.filter (fun e => decide (e.1 = name))).map (fun e => e.2)).sum

/-! ## Further notions and inputs -/

/-- The text between the first and the second backslash of a player-info line, when the line
has two backslashes and the text is not empty. -/
def announcedBetween (line : Str) : Option Str :=
  if isPlayerInfo line then
    match strings.Split line (lit "\\") with
    | _ :: name :: _ :: _ => if name = [] then none else some name
    | _ => none
  else none

/-- Some successfully parsed kill line of `lines` has the attacker `p`, other than
`<world>`. -/
def attacksIn (lines : List Str) (p : Str) : Prop :=
  ∃ l ∈ lines, ∃ e, killEvent l = some e ∧ e.attacker = p ∧ p ≠ lit "<world>"

/-- Some successfully parsed kill line of `lines` has the attacker `<world>` and the victim
`p`. -/
def diesByWorldIn (lines : List Str) (p : Str) : Prop :=
  ∃ l ∈ lines, ∃ e, killEvent l = some e ∧ e.attacker = lit "<world>" ∧ e.victim = p

/-- A game whose player-info line has a single backslash. -/
def singleBackslashLog : List Str := [lit "InitGame:", lit "ClientUserinfoChanged: 2 n\\Dono"]

/-- A line with the kill marker that splits at `: ` into two segments. -/
def twoSegmentKillLine : Str := lit "Kill: <world> killed Dono by MOD_TRIGGER_HURT"

/-- A line with none of the three markers. -/
def inertLine : Str := lit "20:37 ClientConnect: 2"

/-! ## Notions and inputs of the amended claims -/

/-- A byte of white space: a space, or one of the control characters from the tabulator to
the carriage return. -/
def isSpaceByte (b : UInt8) : Bool := b == 32 || (9 ≤ b && b ≤ 13)

/-- The scan of `whitespaceTokens`: `cur` holds (reversed) the bytes of the token being
read. -/
def whitespaceTokensLoop : Str → Str → List Str
  | [], cur => if cur = [] then [] else [cur.reverse]
  | c :: s, cur =>
    if isSpaceByte c then
      if cur = [] then whitespaceTokensLoop s [] else cur.reverse :: whitespaceTokensLoop s []
    else whitespaceTokensLoop s (c :: cur)

/-- The whitespace-separated tokens of a text, in the words of the specification: the
maximal runs of bytes that are not white space. -/
def whitespaceTokens (s : Str) : List Str := whitespaceTokensLoop s []

/-- A kill line whose message segment ends in a space: it has three whitespace-separated
tokens and splits at its spaces into four pieces, the last one empty. -/
def trailingSpaceKillLine : Str := lit "Kill: 1 2 3: <world> killed Dono "

/-- A game in which `Dono` is announced. -/
def announcedLog : List Str := [lit "InitGame:", lit "ClientUserinfoChanged: 2 n\\Dono\\..."]

/-- A heap with the `Kills` maps of two games: `A: 9223372036854775807`, the largest `int`,
and `A: 1`. -/
def overflowHeap : Heap :=
  Heap.write (Heap.write (fun _ => ∅) 0 (lit "A") 9223372036854775807) 2 (lit "A") 1

/-- A line of 65536 bytes `a`. -/
def overlongLine : Str := List.replicate 65536 97

/-! ## Index expressions within bounds -/

theorem index_natCast {α : Type} (xs : List α) (i : Nat) : index xs (i : Int) = xs[i]? := by
  simp [index]

theorem index_last {α : Type} (xs : List α) (d : α) (h : 0 < xs.length) :
    index xs ((xs.length : Int) - 1) = some (xs.getLastD d) := by
  have h1 : ((xs.length : Int) - 1) = ((xs.length - 1 : Nat) : Int) := by omega
  rw [h1, index_natCast, ← List.getLast?_eq_getElem?, List.getLastD_eq_getLast?]
  cases xs with
  | nil => simp at h
  | cons a t => simp [List.getLast?_cons]

theorem index_getD {α : Type} (xs : List α) (i : Nat) (d : α) (h : i < xs.length) :
    index xs (i : Int) = some (xs.getD i d) := by
  rw [index_natCast, List.getD_eq_getElem?_getD, List.getElem?_eq_getElem h]
  rfl

/-! ## The loop body never panics -/

theorem playerBranch_eq (heap : Heap) (g : Game) (line : Str) :
    playerBranch heap g line = some (playerEffect heap g line) := by
  unfold playerBranch playerEffect announced isPlayerInfo
  by_cases hc : strings.Contains line (lit "ClientUserinfoChanged") = true
  · simp only [hc, if_true]
    rcases hs : strings.Split line (lit "\\") with _ | ⟨f0, _ | ⟨name, rest⟩⟩
    · simp
    · simp
    · have hi : index (f0 :: name :: rest) 1 = some name := by
        simpa using index_natCast (f0 :: name :: rest) 1
      by_cases hn : name = []
      · subst hn
        simp [hi]
      · by_cases hp : contains g.Players name = true
        · simp [hi, hn, hp]
        · simp [hi, hn, hp]
  · simp [hc]

theorem killBranch_eq (heap : Heap) (g : Game) (line : Str) :
    killBranch heap g line = some (killEffect heap g line) := by
  unfold killBranch killEffect killEvent
  by_cases hc : strings.Contains line (lit "Kill:") = true
  · by_cases hp : (strings.Split line (lit ": ")).length < 3
    · have : ¬ 3 ≤ (strings.Split line (lit ": ")).length := by omega
      simp [hc, hp, this]
    · have h3 : 3 ≤ (strings.Split line (lit ": ")).length := by omega
      have hm : index (strings.Split line (lit ": "))
          (((strings.Split line (lit ": ")).length : Int) - 1) = some (messageSegment line) :=
        index_last _ [] (by omega)
      by_cases hk : 4 ≤ (messageTokens line).length
      · have hk' : 4 ≤ (strings.Split (messageSegment line) (lit " ")).length := hk
        have h0 : index (strings.Split (messageSegment line) (lit " ")) 0
            = some ((messageTokens line).getD 0 []) :=
          index_getD (messageTokens line) 0 [] (by omega)
        have h2 : index (strings.Split (messageSegment line) (lit " ")) 2
            = some ((messageTokens line).getD 2 []) :=
          index_getD (messageTokens line) 2 [] (by omega)
        have hl : index (strings.Split (messageSegment line) (lit " "))
            (((strings.Split (messageSegment line) (lit " ")).length : Int) - 1)
            = some ((messageTokens line).getLastD []) :=
          index_last (messageTokens line) [] (by omega)
        simp only [hc, hp, h3, hk, hm, h0, h2, hl, hk', if_true, if_false, true_and, and_self,
          Option.bind_eq_bind, Option.some_bind, ge_iff_le]
        split <;> rfl
      · have hk' : ¬ 4 ≤ (strings.Split (messageSegment line) (lit " ")).length := hk
        simp [hc, hp, h3, hk, hm, hk']
  · simp [hc]

theorem processLine_eq (st : ParseState) (line : Str) :
    processLine st line = some (afterLine st line) := by
  unfold processLine afterLine
  have h0 : (if strings.Contains line (lit "InitGame:") = true then initGame st else st)
      = afterInit st line := rfl
  simp only [h0]
  cases hg : (afterInit st line).currentGame with
  | none => rfl
  | some g =>
    simp [playerBranch_eq, killBranch_eq, lineEffect]

theorem scan_eq (st : ParseState) (lines : List Str) :
    scan st lines = some (afterLines st lines) := by
  induction lines generalizing st with
  | nil => rfl
  | cons l ls ih => simp [scan, processLine_eq, ih, afterLines]

theorem parseLogFile_eq (lines : List Str) :
    parseLogFile lines = some ((afterLines ParseState.init lines).games,
      (afterLines ParseState.init lines).heap) := by
  simp [parseLogFile, scan_eq]

theorem afterLines_append (st : ParseState) (l₁ l₂ : List Str) :
    afterLines st (l₁ ++ l₂) = afterLines (afterLines st l₁) l₂ := by
  simp [afterLines, List.foldl_append]

/-! ## The blocks on the heap and on the value of the current game -/

theorem heap_write_same (heap : Heap) (m : Nat) (k : Str) (v : Int) :
    (heap.write m k v) m = (heap m).insert k v := by
  simp [Heap.write]

theorem heap_write_other (heap : Heap) (m a : Nat) (k : Str) (v : Int) (h : a ≠ m) :
    (heap.write m k v) a = heap a := by
  simp [Heap.write, Function.update_noteq h]

theorem playerEffect_addr (heap : Heap) (g : Game) (line : Str) :
    (playerEffect heap g line).2.Kills = g.Kills
      ∧ (playerEffect heap g line).2.KillsByMeans = g.KillsByMeans := by
  unfold playerEffect
  split
  · exact ⟨rfl, rfl⟩
  · split <;> exact ⟨rfl, rfl⟩

theorem playerEffect_frame (heap : Heap) (g : Game) (line : Str) (a : Nat) (h : a ≠ g.Kills) :
    (playerEffect heap g line).1 a = heap a := by
  unfold playerEffect
  split
  · rfl
  · split
    · rfl
    · exact heap_write_other heap g.Kills a _ _ h

theorem playerEffect_view (heap : Heap) (g : Game) (line : Str)
    (hd : g.Kills ≠ g.KillsByMeans) :
    (playerEffect heap g line).2.view (playerEffect heap g line).1
      = (g.view heap).player line := by
  unfold playerEffect GameView.player
  cases announced line with
  | none => rfl
  | some p =>
    by_cases hc : contains g.Players p = true
    · simp [hc, Game.view]
    · simp [hc, Game.view, heap_write_same, heap_write_other _ _ _ _ _ (Ne.symm hd)]

theorem killEffect_addr (heap : Heap) (g : Game) (line : Str) :
    (killEffect heap g line).2.Kills = g.Kills
      ∧ (killEffect heap g line).2.KillsByMeans = g.KillsByMeans
      ∧ (killEffect heap g line).2.Players = g.Players := by
  unfold killEffect
  split
  · exact ⟨rfl, rfl, rfl⟩
  · dsimp only
    split <;> exact ⟨rfl, rfl, rfl⟩

theorem killEffect_frame (heap : Heap) (g : Game) (line : Str) (a : Nat)
    (h : a ≠ g.Kills) (h' : a ≠ g.KillsByMeans) :
    (killEffect heap g line).1 a = heap a := by
  unfold killEffect
  split
  · rfl
  · dsimp only
    split <;> simp [heap_write_other _ _ _ _ _ h, heap_write_other _ _ _ _ _ h']

theorem killEffect_view (heap : Heap) (g : Game) (line : Str)
    (hd : g.Kills ≠ g.KillsByMeans) :
    (killEffect heap g line).2.view (killEffect heap g line).1
      = (g.view heap).kill line := by
  unfold killEffect GameView.kill
  cases killEvent line with
  | none => rfl
  | some e =>
    by_cases hw : e.attacker = lit "<world>"
    · simp [hw, Game.view, Heap.read, heap_write_same, heap_write_other _ _ _ _ _ hd,
        heap_write_other _ _ _ _ _ (Ne.symm hd)]
    · simp [hw, Game.view, Heap.read, heap_write_same, heap_write_other _ _ _ _ _ hd,
        heap_write_other _ _ _ _ _ (Ne.symm hd)]

theorem lineEffect_addr (heap : Heap) (g : Game) (line : Str) :
    (lineEffect heap g line).2.Kills = g.Kills
      ∧ (lineEffect heap g line).2.KillsByMeans = g.KillsByMeans := by
  unfold lineEffect
  have h1 := playerEffect_addr heap g line
  have h2 := killEffect_addr (playerEffect heap g line).1 (playerEffect heap g line).2 line
  exact ⟨h2.1.trans h1.1, h2.2.1.trans h1.2⟩

theorem lineEffect_frame (heap : Heap) (g : Game) (line : Str) (a : Nat)
    (h : a ≠ g.Kills) (h' : a ≠ g.KillsByMeans) :
    (lineEffect heap g line).1 a = heap a := by
  unfold lineEffect
  have h1 := playerEffect_addr heap g line
  rw [killEffect_frame _ _ _ _ (by rw [h1.1]; exact h) (by rw [h1.2]; exact h'),
    playerEffect_frame _ _ _ _ h]

theorem lineEffect_view (heap : Heap) (g : Game) (line : Str)
    (hd : g.Kills ≠ g.KillsByMeans) :
    (lineEffect heap g line).2.view (lineEffect heap g line).1 = (g.view heap).line line := by
  unfold lineEffect GameView.line
  have h1 := playerEffect_addr heap g line
  rw [killEffect_view _ _ _ (by rw [h1.1, h1.2]; exact hd), playerEffect_view _ _ _ hd]

/-! ## Spans -/

theorem spans_eq_nil_of_no_init (L : List Str) (h : ∀ l ∈ L, isInit l = false) :
    spans L = [] := by
  induction L with
  | nil => rfl
  | cons a L ih =>
    have ha : isInit a = false := h a (List.mem_cons_self _ _)
    simp [spans, ha, ih (fun l hl => h l (List.mem_cons_of_mem _ hl))]

theorem no_init_of_spans_eq_nil (L : List Str) (h : spans L = []) :
    ∀ l ∈ L, isInit l = false := by
  induction L with
  | nil => simp
  | cons a L ih =>
    by_cases ha : isInit a = true
    · simp [spans, ha] at h
    · simp only [Bool.not_eq_true] at ha
      simp only [spans, ha, Bool.false_eq_true, if_false] at h
      intro l hl
      rcases List.mem_cons.mp hl with rfl | hl
      · exact ha
      · exact ih h l hl

theorem takeWhile_append_singleton_of_false (p : Str → Bool) (L : List Str) (l : Str)
    (h : p l = false) : (L ++ [l]).takeWhile p = L.takeWhile p := by
  induction L with
  | nil => simp [List.takeWhile, h]
  | cons a L ih =>
    by_cases ha : p a = true
    · simp [List.takeWhile_cons, ha, ih]
    · simp [List.takeWhile_cons, ha]

theorem takeWhile_append_singleton_of_exists (p : Str → Bool) (L : List Str) (l : Str)
    (h : ∃ x ∈ L, p x = false) : (L ++ [l]).takeWhile p = L.takeWhile p := by
  induction L with
  | nil => simp at h
  | cons a L ih =>
    by_cases ha : p a = true
    · have : ∃ x ∈ L, p x = false := by
        rcases h with ⟨x, hx, hpx⟩
        rcases List.mem_cons.mp hx with rfl | hx
        · rw [ha] at hpx; cases hpx
        · exact ⟨x, hx, hpx⟩
      simp [List.takeWhile_cons, ha, ih this]
    · simp [List.takeWhile_cons, ha]

theorem takeWhile_eq_self_of_all (p : Str → Bool) (L : List Str)
    (h : ∀ x ∈ L, p x = true) : L.takeWhile p = L := by
  induction L with
  | nil => rfl
  | cons a L ih =>
    simp [List.takeWhile_cons, h a (List.mem_cons_self _ _),
      ih (fun x hx => h x (List.mem_cons_of_mem _ hx))]

theorem spans_cons_init (a : Str) (L : List Str) (ha : isInit a = true) :
    spans (a :: L) = (a :: L.takeWhile (fun l => !isInit l)) :: spans L := by
  simp [spans, ha]

theorem spans_cons_other (a : Str) (L : List Str) (ha : isInit a = false) :
    spans (a :: L) = spans L := by
  simp [spans, ha]

theorem spans_append_singleton (L : List Str) (l : Str) :
    spans (L ++ [l]) = if isInit l then spans L ++ [[l]] else extendLast (spans L) l := by
  induction L with
  | nil =>
    by_cases hl : isInit l = true
    · simp [spans, hl]
    · simp [spans, hl, extendLast]
  | cons a L ih =>
    by_cases ha : isInit a = true
    · rw [List.cons_append, spans_cons_init _ _ ha, spans_cons_init _ _ ha, ih]
      by_cases hl : isInit l = true
      · simp [hl, takeWhile_append_singleton_of_false (fun l => !isInit l) L l (by simp [hl])]
      · simp only [hl, Bool.false_eq_true, if_false]
        cases hs : spans L with
        | nil =>
          have hall := no_init_of_spans_eq_nil L hs
          have h1 : (L ++ [l]).takeWhile (fun l => !isInit l) = L ++ [l] :=
            takeWhile_eq_self_of_all _ _ (by
              intro x hx
              rcases List.mem_append.mp hx with hx | hx
              · simp [hall x hx]
              · simp at hx; subst hx; simpa using hl)
          have h2 : L.takeWhile (fun l => !isInit l) = L :=
            takeWhile_eq_self_of_all _ _ (by intro x hx; simp [hall x hx])
          simp [h1, h2, extendLast]
        | cons s t =>
          have hex : ∃ x ∈ L, (fun l => !isInit l) x = false := by
            by_contra hcon
            push_neg at hcon
            have : spans L = [] := spans_eq_nil_of_no_init L (by
              intro x hx
              have := hcon x hx
              simpa using this)
            rw [this] at hs
            cases hs
          simp [takeWhile_append_singleton_of_exists _ L l hex, extendLast]
    · simp only [Bool.not_eq_true] at ha
      rw [List.cons_append, spans_cons_other _ _ ha, spans_cons_other _ _ ha, ih]

theorem initCount_append_singleton (L : List Str) (l : Str) :
    initCount (L ++ [l]) = initCount L + (if isInit l then 1 else 0) := by
  unfold initCount
  by_cases hl : isInit l = true <;> simp [List.filter_append, List.filter_cons, hl]

theorem spans_length (L : List Str) : (spans L).length = initCount L := by
  induction L with
  | nil => rfl
  | cons a L ih =>
    by_cases ha : isInit a = true
    · simp [spans, initCount, ha, List.filter_cons] at ih ⊢
      exact ih
    · simp [spans, initCount, ha, List.filter_cons] at ih ⊢
      exact ih

theorem extendLast_length (sp : List (List Str)) (l : Str) :
    (extendLast sp l).length = sp.length := by
  induction sp with
  | nil => rfl
  | cons s t ih =>
    cases t with
    | nil => rfl
    | cons t r => simp [extendLast] at ih ⊢; exact ih

theorem extendLast_getElem? (sp : List (List Str)) (l : Str) (i : Nat) :
    (extendLast sp l)[i]? =
      if i + 1 = sp.length then sp[i]?.map (fun s => s ++ [l]) else sp[i]? := by
  induction sp generalizing i with
  | nil => simp [extendLast]
  | cons s t ih =>
    cases t with
    | nil =>
      cases i with
      | zero => simp [extendLast]
      | succ i => simp [extendLast]
    | cons t r =>
      cases i with
      | zero => simp [extendLast]
      | succ i =>
        simp only [extendLast, List.getElem?_cons_succ, List.length_cons] at ih ⊢
        rw [ih i]
        simp

/-! ## Game names are distinct -/

theorem fmtDigits_eq (fuel n : Nat) (acc : Str) (h : n < fuel) (hn : 0 < n) :
    fmtDigits fuel n acc = (Nat.digits 10 n).reverse.map digitByte ++ acc := by
  induction fuel generalizing n acc with
  | zero => omega
  | succ fuel ih =>
    have hd : Nat.digits 10 n = (n % 10) :: Nat.digits 10 (n / 10) :=
      Nat.digits_def' (by norm_num) hn
    unfold fmtDigits
    by_cases h0 : n / 10 = 0
    · simp [h0, hd]
    · simp only [h0, if_false]
      rw [ih (n / 10) _ (by omega) (by omega), hd]
      simp

theorem digitByte_inj : ∀ a < 10, ∀ b < 10, digitByte a = digitByte b → a = b := by
  decide

theorem map_digitByte_inj (l₁ l₂ : List Nat) (h₁ : ∀ d ∈ l₁, d < 10) (h₂ : ∀ d ∈ l₂, d < 10)
    (h : l₁.map digitByte = l₂.map digitByte) : l₁ = l₂ := by
  induction l₁ generalizing l₂ with
  | nil =>
    cases l₂ with
    | nil => rfl
    | cons b t => simp at h
  | cons a s ih =>
    cases l₂ with
    | nil => simp at h
    | cons b t =>
      simp only [List.map_cons, List.cons.injEq] at h
      have hab : a = b :=
        digitByte_inj a (h₁ a (List.mem_cons_self _ _)) b (h₂ b (List.mem_cons_self _ _)) h.1
      rw [hab, ih t (fun d hd => h₁ d (List.mem_cons_of_mem _ hd))
        (fun d hd => h₂ d (List.mem_cons_of_mem _ hd)) h.2]

theorem fmtInt_pos (i : Nat) (hi : 0 < i) :
    fmtInt (i : Int) = (Nat.digits 10 i).reverse.map digitByte := by
  have : ¬ ((i : Int) < 0) := by omega
  simp [fmtInt, this, fmtDigits_eq (i + 1) i [] (by omega) hi]

theorem gameName_inj (i j : Nat) (hi : 0 < i) (hj : 0 < j)
    (h : gameName (i : Int) = gameName (j : Int)) : i = j := by
  unfold gameName at h
  have h1 := List.append_cancel_left h
  rw [fmtInt_pos i hi, fmtInt_pos j hj] at h1
  have h2 := map_digitByte_inj _ _
    (fun d hd => Nat.digits_lt_base (by norm_num) (List.mem_reverse.mp hd))
    (fun d hd => Nat.digits_lt_base (by norm_num) (List.mem_reverse.mp hd)) h1
  exact Nat.digits_inj_iff.mp (List.reverse_injective h2)

/-! ## The state after any sequence of lines -/

theorem ofSpan_append_singleton (S : List Str) (l : Str) :
    GameView.ofSpan (S ++ [l]) = (GameView.ofSpan S).line l := by
  simp [GameView.ofSpan, List.foldl_append]

theorem Game.eq_of_view (g : Game) (heap : Heap) (v : GameView) (a b : Nat)
    (hv : g.view heap = v) (ha : g.Kills = a) (hb : g.KillsByMeans = b) :
    g = { TotalKills := v.TotalKills, Players := v.Players, Kills := a, KillsByMeans := b }
      ∧ heap a = v.Kills ∧ heap b = v.KillsByMeans := by
  subst hv ha hb
  exact ⟨rfl, rfl, rfl⟩

theorem gameName_not_mem_keys (n : Nat) :
    gameName ((n : Int) + 1)
      ∉ ((List.range n).map (fun i : Nat => gameName ((i : Int) + 1))).reverse := by
  intro h
  rw [List.mem_reverse, List.mem_map] at h
  rcases h with ⟨i, hi, he⟩
  have := gameName_inj (i + 1) (n + 1) (by omega) (by omega) (by exact_mod_cast he)
  have hlt := List.mem_range.mp hi
  omega

theorem inv_init : Inv [] ParseState.init where
  number := rfl
  next := rfl
  keys := rfl
  stored := by intro i hi; simp [initCount] at hi
  current := rfl
  maps := by intro i S h; simp [spans] at h

theorem inv_step_init (L : List Str) (st : ParseState) (l : Str) (hI : Inv L st)
    (hl : isInit l = true) : Inv (L ++ [l]) (afterLine st l) := by
  have hn : initCount (L ++ [l]) = initCount L + 1 := by
    simp [initCount_append_singleton, hl]
  have hsp : spans (L ++ [l]) = spans L ++ [[l]] := by
    simp [spans_append_singleton, hl]
  have h0 : afterInit st l = initGame st := by simp [afterInit, hl]
  set g0 : Game := storedOf (initCount L) with hg0
  have hcur0 : (initGame st).currentGame = some g0 := by
    simp [initGame, hg0, storedOf, hI.next]
  have hheap0a : (initGame st).heap (2 * initCount L) = ∅ := by
    simp [initGame, hI.next, Function.update]
  have hheap0b : (initGame st).heap (2 * initCount L + 1) = ∅ := by
    simp [initGame, hI.next, Function.update]
  have hheap0 : ∀ a, a < 2 * initCount L → (initGame st).heap a = st.heap a := by
    intro a ha
    have h1 : a ≠ st.nextAddr + 1 := by rw [hI.next]; omega
    have h2 : a ≠ st.nextAddr := by rw [hI.next]; omega
    simp [initGame, Function.update_noteq h1, Function.update_noteq h2]
  have hview0 : g0.view (initGame st).heap = GameView.empty := by
    simp [Game.view, hg0, storedOf, hheap0a, hheap0b, GameView.empty]
  have hline : afterLine st l =
      { initGame st with
        heap := (lineEffect (initGame st).heap g0 l).1
        currentGame := some (lineEffect (initGame st).heap g0 l).2 } := by
    simp [afterLine, h0, hcur0]
  have hd : g0.Kills ≠ g0.KillsByMeans := by simp [hg0, storedOf]
  have haddr := lineEffect_addr (initGame st).heap g0 l
  have hview := lineEffect_view (initGame st).heap g0 l hd
  rw [hview0] at hview
  have hspan1 : GameView.ofSpan [l] = GameView.empty.line l := rfl
  rw [← hspan1] at hview
  have hfin := Game.eq_of_view _ _ _ (2 * initCount L) (2 * initCount L + 1) hview
    (by rw [haddr.1]; simp [hg0, storedOf]) (by rw [haddr.2]; simp [hg0, storedOf])
  rw [hline]
  refine ⟨?_, ?_, ?_, ?_, ?_, ?_⟩
  · simp [initGame, hI.number, hn]
  · simp [initGame, hI.next, hn]; ring
  · simp only [initGame, AList.keys_insert, hI.keys, hI.number, hn]
    rw [@List.erase_of_not_mem _ instBEqOfDecidableEq _ _ _
      (gameName_not_mem_keys (initCount L)), List.range_succ]
    simp
  · intro i hi
    rw [hn] at hi
    simp only [initGame, hI.number]
    by_cases hin : i = initCount L
    · subst hin
      simp [hg0, hI.next, storedOf]
    · have hne : gameName ((i : Int) + 1) ≠ gameName ((initCount L : Int) + 1) := by
        intro he
        have := gameName_inj (i + 1) (initCount L + 1) (by omega) (by omega)
          (by exact_mod_cast he)
        omega
      rw [AList.lookup_insert_ne hne]
      exact hI.stored i (by omega)
  · simp only [hsp, hn]
    rw [List.getLast?_append, hfin.1]
    simp [currentOf]
  · intro i S hS
    rw [hsp, List.getElem?_append] at hS
    by_cases hi : i < (spans L).length
    · simp only [hi, if_true] at hS
      have hi' : i < initCount L := by rw [← spans_length]; exact hi
      have := hI.maps i S hS
      dsimp only
      rw [lineEffect_frame _ _ _ _ (by simp [hg0, storedOf]; omega)
          (by simp [hg0, storedOf]; omega),
        lineEffect_frame _ _ _ _ (by simp [hg0, storedOf]; omega)
          (by simp [hg0, storedOf]; omega),
        hheap0 _ (by omega), hheap0 _ (by omega)]
      exact this
    · simp only [hi, if_false] at hS
      have hlen := spans_length L
      have hi2 : i = initCount L := by
        by_contra hne
        have : i - (spans L).length ≠ 0 := by omega
        rcases hk : i - (spans L).length with _ | k
        · exact this hk
        · rw [hk] at hS; simp at hS
      subst hi2
      rw [hlen] at hS
      simp at hS
      subst hS
      exact ⟨hfin.2.1, hfin.2.2⟩

theorem inv_step_other (L : List Str) (st : ParseState) (l : Str) (hI : Inv L st)
    (hl : isInit l = false) : Inv (L ++ [l]) (afterLine st l) := by
  have hn : initCount (L ++ [l]) = initCount L := by
    simp [initCount_append_singleton, hl]
  have hsp : spans (L ++ [l]) = extendLast (spans L) l := by
    simp [spans_append_singleton, hl]
  have h0 : afterInit st l = st := by simp [afterInit, hl]
  have hlen := spans_length L
  cases hlast : (spans L).getLast? with
  | none =>
    have hnil : spans L = [] := List.getLast?_eq_none_iff.mp hlast
    have hcur : st.currentGame = none := by rw [hI.current, hlast]; rfl
    have hline : afterLine st l = st := by simp [afterLine, h0, hcur]
    rw [hline]
    refine ⟨?_, ?_, ?_, ?_, ?_, ?_⟩
    · rw [hn]; exact hI.number
    · rw [hn]; exact hI.next
    · rw [hn]; exact hI.keys
    · rw [hn]; exact hI.stored
    · rw [hsp, hnil, hcur]; rfl
    · intro i S hS
      rw [hsp, hnil] at hS
      simp [extendLast] at hS
  | some S₀ =>
    have hpos : 0 < initCount L := by
      rw [← hlen]
      cases hs : spans L with
      | nil => rw [hs] at hlast; simp at hlast
      | cons a t => simp
    have hidx : (spans L)[initCount L - 1]? = some S₀ := by
      rw [← hlen, ← List.getLast?_eq_getElem?]; exact hlast
    set g : Game := currentOf (initCount L) S₀ with hg
    have hcur : st.currentGame = some g := by rw [hI.current, hlast]; rfl
    have hline : afterLine st l =
        { st with
          heap := (lineEffect st.heap g l).1
          currentGame := some (lineEffect st.heap g l).2 } := by
      simp [afterLine, h0, hcur]
    have hd : g.Kills ≠ g.KillsByMeans := by simp [hg, currentOf]
    have hm := hI.maps _ _ hidx
    have hview0 : g.view st.heap = GameView.ofSpan S₀ := by
      simp [Game.view, hg, currentOf, hm.1, hm.2]
    have haddr := lineEffect_addr st.heap g l
    have hview := lineEffect_view st.heap g l hd
    rw [hview0, ← ofSpan_append_singleton] at hview
    have hfin := Game.eq_of_view _ _ _ (2 * (initCount L - 1)) (2 * (initCount L - 1) + 1) hview
      (by rw [haddr.1]; simp [hg, currentOf]) (by rw [haddr.2]; simp [hg, currentOf])
    have hlast' : (extendLast (spans L) l).getLast? = some (S₀ ++ [l]) := by
      rw [List.getLast?_eq_getElem?, extendLast_length, extendLast_getElem?, hlen]
      have : initCount L - 1 + 1 = initCount L := by omega
      simp [this, hidx]
    rw [hline]
    refine ⟨?_, ?_, ?_, ?_, ?_, ?_⟩
    · rw [hn]; exact hI.number
    · rw [hn]; exact hI.next
    · rw [hn]; exact hI.keys
    · rw [hn]; exact hI.stored
    · rw [hsp, hlast', hn, hfin.1]
      rfl
    · intro i S hS
      rw [hsp, extendLast_getElem?, hlen] at hS
      by_cases hi : i + 1 = initCount L
      · have hi' : i = initCount L - 1 := by omega
        subst hi'
        simp only [hi, if_true, hidx, Option.map_some', Option.some.injEq] at hS
        subst hS
        exact ⟨hfin.2.1, hfin.2.2⟩
      · simp only [hi, if_false] at hS
        have hlt : i < initCount L := by
          rw [← hlen]
          exact (List.getElem?_eq_some_iff.mp hS).1
        have := hI.maps i S hS
        dsimp only
        rw [lineEffect_frame _ _ _ _ (by simp [hg, currentOf]; omega)
            (by simp [hg, currentOf]; omega),
          lineEffect_frame _ _ _ _ (by simp [hg, currentOf]; omega)
            (by simp [hg, currentOf]; omega)]
        exact this

theorem inv_afterLines (L : List Str) : Inv L (afterLines ParseState.init L) := by
  induction L using List.reverseRecOn with
  | nil => exact inv_init
  | append_singleton L l ih =>
    rw [afterLines_append]
    have : afterLines (afterLines ParseState.init L) [l]
        = afterLine (afterLines ParseState.init L) l := rfl
    rw [this]
    by_cases hl : isInit l = true
    · exact inv_step_init L _ l ih hl
    · exact inv_step_other L _ l ih (by simpa using hl)

/-! ## Reads of a map after an assignment -/

theorem get_insert_same (m : GoMap) (k : Str) (v : Int) :
    GoMap.get (m.insert k v) k = v := by
  simp [GoMap.get]

theorem get_insert_other (m : GoMap) (k p : Str) (v : Int) (h : p ≠ k) :
    GoMap.get (m.insert k v) p = m.get p := by
  simp [GoMap.get, AList.lookup_insert_ne h]

theorem sum_kerase (k : Str) (l : List (Sigma (fun _ : Str => Int))) :
    ((l.kerase k).map (fun e => e.2)).sum + (l.dlookup k).getD 0
      = (l.map (fun e => e.2)).sum := by
  induction l with
  | nil => simp
  | cons e t ih =>
    rcases e with ⟨a, b⟩
    by_cases h : a = k
    · subst h
      simp [List.kerase_cons_eq, List.dlookup_cons_eq]
      ring
    · have h' : k ≠ a := fun e => h e.symm
      rw [List.kerase_cons_ne h', List.dlookup_cons_ne _ _ h']
      simp only [List.map_cons, List.sum_cons]
      rw [add_assoc, ih]

theorem total_insert (m : GoMap) (k : Str) (v : Int) :
    GoMap.total (m.insert k v) = m.total - m.get k + v := by
  have h := sum_kerase k m.entries
  simp only [GoMap.total, GoMap.get, AList.lookup, AList.insert_entries, List.map_cons,
    List.sum_cons] at h ⊢
  omega

/-! ## The maps of a game in terms of the lines of its span -/

theorem causeCount_append_singleton (S : List Str) (l : Str) (c : Str) :
    causeCount (S ++ [l]) c
      = causeCount S c + (if (killEvent l).any (fun e => e.cause = c) then 1 else 0) := by
  unfold causeCount
  by_cases h : (killEvent l).any (fun e => decide (e.cause = c)) = true
  · simp [List.filter_append, List.filter_cons, h]
  · simp [List.filter_append, List.filter_cons, h]

theorem killCount_append_singleton (S : List Str) (l : Str) :
    killCount (S ++ [l]) = killCount S + (if isKill l then 1 else 0) := by
  unfold killCount
  by_cases h : isKill l = true
  · simp [List.filter_append, List.filter_cons, h]
  · simp [List.filter_append, List.filter_cons, h]

theorem player_killsByMeans (v : GameView) (l : Str) :
    (v.player l).KillsByMeans = v.KillsByMeans := by
  unfold GameView.player
  split
  · rfl
  · split <;> rfl

theorem player_totalKills (v : GameView) (l : Str) :
    (v.player l).TotalKills = v.TotalKills := by
  unfold GameView.player
  split
  · rfl
  · split <;> rfl

theorem ofSpan_killsByMeans_get (S : List Str) (c : Str) :
    (GameView.ofSpan S).KillsByMeans.get c = causeCount S c := by
  induction S using List.reverseRecOn with
  | nil => simp [GameView.ofSpan, GameView.empty, GoMap.get, causeCount]
  | append_singleton S l ih =>
    rw [ofSpan_append_singleton, causeCount_append_singleton]
    unfold GameView.line GameView.kill
    cases he : killEvent l with
    | none => simp [player_killsByMeans, ih]
    | some e =>
      by_cases hc : e.cause = c
      · subst hc
        simp [player_killsByMeans, get_insert_same, ih]
      · have hc' : c ≠ e.cause := fun h => hc h.symm
        simp [player_killsByMeans, get_insert_other _ _ _ _ hc', ih, hc]

theorem ofSpan_killsByMeans_total (S : List Str) :
    (GameView.ofSpan S).KillsByMeans.total = killCount S := by
  induction S using List.reverseRecOn with
  | nil => simp [GameView.ofSpan, GameView.empty, GoMap.total, killCount]
  | append_singleton S l ih =>
    rw [ofSpan_append_singleton, killCount_append_singleton]
    unfold GameView.line GameView.kill isKill
    cases he : killEvent l with
    | none => simp [player_killsByMeans, ih]
    | some e =>
      simp only [player_killsByMeans, total_insert, ih, Option.isSome_some, if_true]
      push_cast
      ring

theorem ofSpan_totalKills (S : List Str) :
    (GameView.ofSpan S).TotalKills = killCount S := by
  induction S using List.reverseRecOn with
  | nil => simp [GameView.ofSpan, GameView.empty, killCount]
  | append_singleton S l ih =>
    rw [ofSpan_append_singleton, killCount_append_singleton]
    unfold GameView.line GameView.kill isKill
    cases he : killEvent l with
    | none => simp [player_totalKills, ih]
    | some e => simp [player_totalKills, ih]

theorem contains_iff_mem (xs : List Str) (p : Str) : contains xs p = true ↔ p ∈ xs := by
  induction xs with
  | nil => simp [contains]
  | cons a t ih =>
    by_cases h : a = p
    · simp [contains, h]
    · have h' : ¬ p = a := fun e => h e.symm
      simp [contains, h, h', ih]

theorem kill_players (v : GameView) (l : Str) : (v.kill l).Players = v.Players := by
  unfold GameView.kill
  split <;> rfl

theorem player_players_mem (v : GameView) (l : Str) (p : Str) :
    p ∈ (v.player l).Players ↔ p ∈ v.Players ∨ announced l = some p := by
  unfold GameView.player
  cases ha : announced l with
  | none => simp
  | some q =>
    by_cases hc : contains v.Players q = true
    · have hq : q ∈ v.Players := (contains_iff_mem _ _).mp hc
      simp only [hc, if_true, Option.some.injEq]
      constructor
      · exact fun h => Or.inl h
      · rintro (h | h)
        · exact h
        · exact h ▸ hq
    · simp only [hc, Bool.false_eq_true, if_false, List.mem_append, List.mem_singleton,
        Option.some.injEq]
      constructor
      · rintro (h | h)
        · exact Or.inl h
        · exact Or.inr h.symm
      · rintro (h | h)
        · exact Or.inl h
        · exact Or.inr h.symm

theorem ofSpan_players_mem (S : List Str) (p : Str) :
    p ∈ (GameView.ofSpan S).Players ↔ ∃ l ∈ S, announced l = some p := by
  induction S using List.reverseRecOn with
  | nil => simp [GameView.ofSpan, GameView.empty]
  | append_singleton S l ih =>
    rw [ofSpan_append_singleton]
    unfold GameView.line
    rw [kill_players, player_players_mem, ih]
    simp only [List.mem_append, List.mem_singleton]
    constructor
    · rintro (⟨x, hx, hp⟩ | h)
      · exact ⟨x, Or.inl hx, hp⟩
      · exact ⟨l, Or.inr rfl, h⟩
    · rintro ⟨x, hx | hx, hp⟩
      · exact Or.inl ⟨x, hx, hp⟩
      · exact Or.inr (hx ▸ hp)

theorem netKills_append (L₁ L₂ : List Str) (p : Str) :
    netKills (L₁ ++ L₂) p = netKills L₁ p + netKills L₂ p := by
  simp only [netKills, attackCount, worldDeathCount, List.filter_append, List.length_append]
  push_cast
  ring

theorem netKills_nil (p : Str) : netKills [] p = 0 := by
  simp [netKills, attackCount, worldDeathCount]

theorem kill_kills_get (v : GameView) (l : Str) (p : Str) :
    (v.kill l).Kills.get p = v.Kills.get p + netKills [l] p := by
  unfold GameView.kill netKills attackCount worldDeathCount
  cases he : killEvent l with
  | none => simp [List.filter_cons, he]
  | some e =>
    by_cases hw : e.attacker = lit "<world>"
    · by_cases hv : e.victim = p
      · subst hv
        have : ¬ (lit "<world>" = e.victim ∧ False) := fun h => h.2
        simp [List.filter_cons, he, hw, get_insert_same]
        ring
      · have hv' : p ≠ e.victim := fun h => hv h.symm
        simp [List.filter_cons, he, hw, hv, get_insert_other _ _ _ _ hv']
    · by_cases ha : e.attacker = p
      · subst ha
        simp [List.filter_cons, he, hw, get_insert_same]
      · have ha' : p ≠ e.attacker := fun h => ha h.symm
        simp [List.filter_cons, he, hw, ha, get_insert_other _ _ _ _ ha']

theorem player_kills_get (v : GameView) (l : Str) (p : Str) :
    (v.player l).Kills.get p
      = if announced l = some p ∧ p ∉ v.Players then 0 else v.Kills.get p := by
  unfold GameView.player
  cases ha : announced l with
  | none => simp
  | some q =>
    by_cases hc : contains v.Players q = true
    · have hq : q ∈ v.Players := (contains_iff_mem _ _).mp hc
      have : ¬ (q = p ∧ p ∉ v.Players) := fun h => h.2 (h.1 ▸ hq)
      simp [hc, this]
    · have hq : q ∉ v.Players := fun h => hc ((contains_iff_mem _ _).mpr h)
      by_cases hqp : q = p
      · subst hqp
        simp [hc, hq, get_insert_same]
      · have hpq : p ≠ q := fun h => hqp h.symm
        simp [hc, hqp, get_insert_other _ _ _ _ hpq]

theorem dropWhile_append_of_exists (q : Str → Bool) (S T : List Str)
    (h : ∃ x ∈ S, q x = false) : (S ++ T).dropWhile q = S.dropWhile q ++ T := by
  induction S with
  | nil => simp at h
  | cons a S ih =>
    by_cases ha : q a = true
    · have : ∃ x ∈ S, q x = false := by
        rcases h with ⟨x, hx, hq⟩
        rcases List.mem_cons.mp hx with rfl | hx
        · rw [ha] at hq; cases hq
        · exact ⟨x, hx, hq⟩
      simp [List.dropWhile_cons, ha, ih this]
    · simp [List.dropWhile_cons, ha]

theorem sinceAnnounced_append_singleton (S : List Str) (l : Str) (p : Str) :
    sinceAnnounced (S ++ [l]) p =
      if (∃ x ∈ S, announced x = some p) then sinceAnnounced S p ++ [l]
      else if announced l = some p then [l] else S ++ [l] := by
  unfold sinceAnnounced
  by_cases hA : ∃ x ∈ S, announced x = some p
  · have h1 : (S.any fun l => decide (announced l = some p)) = true := by
      simpa [List.any_eq_true] using hA
    have h2 : ((S ++ [l]).any fun l => decide (announced l = some p)) = true := by
      simp [List.any_append, h1]
    rw [if_pos h2, if_pos hA, if_pos h1]
    rcases hA with ⟨x, hx, hp⟩
    exact dropWhile_append_of_exists _ S [l] ⟨x, hx, by simp [hp]⟩
  · have h1 : (S.any fun l => decide (announced l = some p)) = false := by
      simpa [List.any_eq_true] using hA
    have hall : ∀ x ∈ S, (!decide (announced x = some p)) = true := by
      intro x hx
      have : ¬ announced x = some p := fun h => hA ⟨x, hx, h⟩
      simp [this]
    rw [if_neg hA]
    by_cases hl : announced l = some p
    · have h2 : ((S ++ [l]).any fun l => decide (announced l = some p)) = true := by
        simp [List.any_append, hl]
      rw [if_pos h2, if_pos hl, List.dropWhile_append_of_pos hall]
      simp [List.dropWhile, hl]
    · have h2 : ((S ++ [l]).any fun l => decide (announced l = some p)) = false := by
        simp [List.any_append, h1, hl]
      simp [h2, hl]

theorem sinceAnnounced_of_none (S : List Str) (p : Str)
    (h : ¬ ∃ x ∈ S, announced x = some p) : sinceAnnounced S p = S := by
  unfold sinceAnnounced
  have h1 : (S.any fun l => decide (announced l = some p)) = false := by
    simpa [List.any_eq_true] using h
  simp [h1]

theorem ofSpan_kills_get (S : List Str) (p : Str) :
    (GameView.ofSpan S).Kills.get p = netKills (sinceAnnounced S p) p := by
  induction S using List.reverseRecOn with
  | nil => simp [GameView.ofSpan, GameView.empty, GoMap.get, sinceAnnounced, netKills_nil]
  | append_singleton S l ih =>
    rw [ofSpan_append_singleton, sinceAnnounced_append_singleton]
    unfold GameView.line
    rw [kill_kills_get, player_kills_get]
    simp only [ofSpan_players_mem]
    by_cases hA : ∃ x ∈ S, announced x = some p
    · simp only [hA, not_true_eq_false, and_false, if_false, if_true, netKills_append, ih]
    · rw [if_neg hA]
      by_cases hl : announced l = some p
      · simp [hl, hA]
      · rw [sinceAnnounced_of_none S p hA] at ih
        simp [hl, netKills_append, ih]

/-! ## The games of the returned collection -/

theorem returned_game (L : List Str) (k : Str) (g : Game)
    (h : (afterLines ParseState.init L).games.lookup k = some g) :
    ∃ (i : Nat) (S : List Str), (spans L)[i]? = some S ∧ k = gameName ((i : Int) + 1)
      ∧ g = storedOf i
      ∧ (afterLines ParseState.init L).heap g.Kills = (GameView.ofSpan S).Kills
      ∧ (afterLines ParseState.init L).heap g.KillsByMeans = (GameView.ofSpan S).KillsByMeans := by
  have hI := inv_afterLines L
  have hk : k ∈ (afterLines ParseState.init L).games.keys := by
    rw [← AList.mem_keys, ← AList.lookup_isSome, h]; rfl
  rw [hI.keys, List.mem_reverse, List.mem_map] at hk
  rcases hk with ⟨i, hi, rfl⟩
  have hi' : i < initCount L := List.mem_range.mp hi
  have hst := hI.stored i hi'
  rw [h] at hst
  have hg : g = storedOf i := Option.some.inj hst
  have hlt : i < (spans L).length := by rw [spans_length]; exact hi'
  refine ⟨i, (spans L)[i], List.getElem?_eq_getElem hlt, rfl, hg, ?_, ?_⟩
  · rw [hg]; exact (hI.maps i _ (List.getElem?_eq_getElem hlt)).1
  · rw [hg]; exact (hI.maps i _ (List.getElem?_eq_getElem hlt)).2

/-! ## The ranking -/

theorem keySum_perm (l₁ l₂ : List (Sigma (fun _ : Str => Int))) (name : Str)
    (h : l₁.Perm l₂) : keySum l₁ name = keySum l₂ name :=
  ((h.filter _).map _).sum_eq

theorem keySum_of_nodupKeys (l : List (Sigma (fun _ : Str => Int))) (name : Str)
    (hl : l.NodupKeys) : keySum l name = (l.dlookup name).getD 0 := by
  induction l with
  | nil => simp [keySum]
  | cons e t ih =>
    rcases e with ⟨a, b⟩
    rw [List.nodupKeys_cons] at hl
    have iht := ih hl.2
    by_cases h : a = name
    · subst h
      have hnone : t.dlookup a = none := List.dlookup_eq_none.mpr hl.1
      rw [hnone] at iht
      simp only [keySum] at iht ⊢
      simp [List.filter_cons, List.dlookup_cons_eq, iht]
    · have h' : name ≠ a := fun e => h e.symm
      simp only [keySum] at iht ⊢
      have hd : List.dlookup name (⟨a, b⟩ :: t) = List.dlookup name t :=
        List.dlookup_cons_ne t ⟨a, b⟩ h'
      simp [List.filter_cons, h, hd, iht]

theorem wrapInt_add_left (a b : Int) : wrapInt (wrapInt a + b) = wrapInt (a + b) := by
  unfold wrapInt
  omega

theorem wrapInt_idem (a : Int) : wrapInt (wrapInt a) = wrapInt a := by
  unfold wrapInt
  omega

theorem wrapInt_congr_add (a a' b : Int) (h : wrapInt a = wrapInt a') :
    wrapInt (a + b) = wrapInt (a' + b) := by
  rw [← wrapInt_add_left a b, h, wrapInt_add_left]

theorem wrapInt_of_range (n : Int) (h₁ : -9223372036854775808 ≤ n)
    (h₂ : n < 9223372036854775808) : wrapInt n = n := by
  unfold wrapInt
  omega

theorem addKills_get (tk : GoMap) (player name : Str) (kills : Int) :
    (addKills tk player kills).get name
      = if player = name then wrapInt (tk.get name + kills) else tk.get name := by
  unfold addKills
  by_cases h : player = name
  · subst h; simp [get_insert_same]
  · have h' : name ≠ player := fun e => h e.symm
    simp [h, get_insert_other _ _ _ _ h']

theorem keySum_cons (e : Sigma (fun _ : Str => Int)) (t : List (Sigma (fun _ : Str => Int)))
    (name : Str) : keySum (e :: t) name = (if e.1 = name then e.2 else 0) + keySum t name := by
  by_cases h : e.1 = name
  · simp [keySum, List.filter_cons, h]
  · simp [keySum, List.filter_cons, h]

theorem foldl_addKills_get (l : List (Sigma (fun _ : Str => Int))) (tk : GoMap)
    (name : Str) :
    wrapInt ((l.foldl (fun totalKills e => addKills totalKills e.1 e.2) tk).get name)
        = wrapInt (tk.get name + keySum l name)
      ∧ (wrapInt (tk.get name) = tk.get name →
          wrapInt ((l.foldl (fun totalKills e => addKills totalKills e.1 e.2) tk).get name)
            = (l.foldl (fun totalKills e => addKills totalKills e.1 e.2) tk).get name) := by
  induction l generalizing tk with
  | nil => simp [keySum]
  | cons e t ih =>
    rw [List.foldl_cons, keySum_cons]
    have h := ih (addKills tk e.1 e.2)
    rw [addKills_get] at h
    by_cases he : e.1 = name
    · simp only [he, if_true] at h ⊢
      refine ⟨?_, fun _ => h.2 (wrapInt_idem _)⟩
      rw [h.1, wrapInt_add_left, add_assoc]
    · simp only [he, if_false] at h ⊢
      refine ⟨?_, fun hf => h.2 hf⟩
      rw [h.1, zero_add]

theorem range_kills_get (ro : RangeOrder) (m tk : GoMap) (name : Str) :
    wrapInt (((ro.visit m.entries).foldl
        (fun totalKills e => addKills totalKills e.1 e.2) tk).get name)
        = wrapInt (tk.get name + m.get name)
      ∧ (wrapInt (tk.get name) = tk.get name →
          wrapInt (((ro.visit m.entries).foldl
              (fun totalKills e => addKills totalKills e.1 e.2) tk).get name)
            = ((ro.visit m.entries).foldl
              (fun totalKills e => addKills totalKills e.1 e.2) tk).get name) := by
  have h := foldl_addKills_get (ro.visit m.entries) tk name
  rw [keySum_perm _ _ name (ro.perm m.entries), keySum_of_nodupKeys _ _ m.nodupKeys] at h
  exact h

theorem foldl_games_get (ro : RangeOrder) (heap : Heap)
    (gs : List (Sigma (fun _ : Str => Game))) (tk : GoMap) (name : Str) :
    wrapInt ((gs.foldl
      (fun totalKills game =>
        (ro.visit (heap game.2.Kills).entries).foldl
          (fun totalKills e => addKills totalKills e.1 e.2) totalKills) tk).get name)
        = wrapInt (tk.get name + (gs.map (fun game => (heap game.2.Kills).get name)).sum)
      ∧ (wrapInt (tk.get name) = tk.get name →
          wrapInt ((gs.foldl
            (fun totalKills game =>
              (ro.visit (heap game.2.Kills).entries).foldl
                (fun totalKills e => addKills totalKills e.1 e.2) totalKills) tk).get name)
            = (gs.foldl
            (fun totalKills game =>
              (ro.visit (heap game.2.Kills).entries).foldl
                (fun totalKills e => addKills totalKills e.1 e.2) totalKills) tk).get name) := by
  induction gs generalizing tk with
  | nil => simp
  | cons game t ih =>
    rw [List.foldl_cons]
    have hr := range_kills_get ro (heap game.2.Kills) tk name
    have h := ih ((ro.visit (heap game.2.Kills).entries).foldl
      (fun totalKills e => addKills totalKills e.1 e.2) tk)
    refine ⟨?_, fun hf => h.2 (hr.2 hf)⟩
    rw [h.1, wrapInt_congr_add _ _ _ hr.1]
    simp only [List.map_cons, List.sum_cons, add_assoc]

theorem accumulateKills_get (ro : RangeOrder) (heap : Heap) (games : GameCollection)
    (name : Str) :
    (accumulateKills ro heap games).get name
      = wrapInt ((games.entries.map (fun game => (heap game.2.Kills).get name)).sum) := by
  unfold accumulateKills
  have h := foldl_games_get ro heap (ro.visit games.entries) ∅ name
  have h0 : GoMap.get ∅ name = 0 := by simp [GoMap.get]
  have hp := ((ro.perm games.entries).map (fun game => (heap game.2.Kills).get name)).sum_eq
  rw [h0, hp, zero_add] at h
  rw [← h.2 (by decide), h.1]

theorem mem_generateRanking (ro : RangeOrder) (heap : Heap) (games : GameCollection)
    (e : PlayerRank) :
    e ∈ generateRanking ro heap games
      ↔ (accumulateKills ro heap games).lookup e.Name = some e.Kills := by
  unfold generateRanking sortSlice
  rw [(List.perm_insertionSort _ _).mem_iff, List.mem_map]
  constructor
  · rintro ⟨x, hx, rfl⟩
    have hx' := (ro.perm _).mem_iff.mp hx
    exact AList.mem_lookup_iff.mpr hx'
  · intro h
    have hx := AList.mem_lookup_iff.mp h
    exact ⟨⟨e.Name, e.Kills⟩, (ro.perm _).mem_iff.mpr hx, rfl⟩

/-! ## The claims -/

/-- C1: on the three lines of the end-to-end example the returned collection has exactly one
game, under the key `game_1`, with `Kills = {Dono: -1}` and `KillsByMeans =
{MOD_TRIGGER_HURT: 1}`, but with `TotalKills = 0` and an empty `Players`; the kill and the
player are counted only in the copy `currentGame` points at, which holds `TotalKills = 1` and
`Players = [Dono]`. -/
theorem example_returned :
    (parseLogFile exampleLog).map (fun r => r.1.keys) = some [lit "game_1"]
    ∧ (parseLogFile exampleLog).map
        (fun r => (r.1.lookup (lit "game_1")).map (fun g => (g.TotalKills, g.Players)))
      = some (some (0, []))
    ∧ (parseLogFile exampleLog).map
        (fun r => (r.1.lookup (lit "game_1")).map (fun g => (r.2 g.Kills).pairs))
      = some (some [(lit "Dono", -1)])
    ∧ (parseLogFile exampleLog).map
        (fun r => (r.1.lookup (lit "game_1")).map (fun g => (r.2 g.KillsByMeans).pairs))
      = some (some [(lit "MOD_TRIGGER_HURT", 1)])
    ∧ (scan ParseState.init exampleLog).map
        (fun st => st.currentGame.map (fun g => (g.TotalKills, g.Players)))
      = some (some (1, [lit "Dono"])) := by
  decide

/-- C2: a game whose span has one successfully parsed kill line is returned with
`TotalKills = 0`; the kill is counted in the copy `currentGame` points at, which holds
`TotalKills = 1`. -/
theorem totalKills_not_returned :
    spans oneKillLog = [oneKillLog] ∧ killCount oneKillLog = 1
    ∧ (parseLogFile oneKillLog).map
        (fun r => (r.1.lookup (gameName 1)).map (fun g => g.TotalKills)) = some (some 0)
    ∧ (scan ParseState.init oneKillLog).map
        (fun st => st.currentGame.map (fun g => g.TotalKills)) = some (some 1) := by
  decide

/-- C3: a game in whose span the line announcing `Dono` occurs twice is returned with an
empty `Players` list: `Dono` appears in it zero times, not once; the name is registered, once,
in the copy `currentGame` points at. -/
theorem players_not_returned :
    spans twiceAnnouncedLog = [twiceAnnouncedLog]
    ∧ twiceAnnouncedLog.map announced = [none, some (lit "Dono"), some (lit "Dono")]
    ∧ (parseLogFile twiceAnnouncedLog).map
        (fun r => (r.1.lookup (gameName 1)).map
          (fun g => (g.Players, g.Players.count (lit "Dono"))))
      = some (some ([], 0))
    ∧ (scan ParseState.init twiceAnnouncedLog).map
        (fun st => st.currentGame.map (fun g => g.Players)) = some (some [lit "Dono"]) := by
  decide

theorem reached_distinct (pre : List Str) (st : ParseState) (g : Game)
    (hst : scan ParseState.init pre = some st) (hcur : st.currentGame = some g) :
    g.Kills ≠ g.KillsByMeans := by
  rw [scan_eq] at hst
  have hI := inv_afterLines pre
  rw [Option.some.inj hst] at hI
  have h := hI.current
  rw [hcur] at h
  cases hl : (spans pre).getLast? with
  | none => rw [hl] at h; cases h
  | some S =>
    rw [hl] at h
    have hg : g = currentOf (initCount pre) S := Option.some.inj h
    rw [hg]
    simp [currentOf]

theorem afterLines_no_init (P : List Str) (h : ∀ l ∈ P, isInit l = false) :
    afterLines ParseState.init P = ParseState.init := by
  induction P using List.reverseRecOn with
  | nil => rfl
  | append_singleton P l ih =>
    rw [afterLines_append, ih (fun x hx => h x (List.mem_append_left _ hx))]
    have hl : isInit l = false := h l (by simp)
    simp [afterLines, afterLine, afterInit, hl, ParseState.init]

/-- C4: the keys of the returned collection are exactly `game_1`, ..., `game_n`, where `n` is
the number of lines that contain `InitGame:`; there are `n` of them, and the names `game_i`
of different numbers differ. -/
theorem game_keys (lines : List Str) :
    ∃ r, parseLogFile lines = some r
      ∧ (∀ k, k ∈ r.1.keys ↔ ∃ i : Nat, 1 ≤ i ∧ i ≤ initCount lines ∧ k = gameName i)
      ∧ r.1.keys.length = initCount lines
      ∧ (∀ i j : Nat, 1 ≤ i → 1 ≤ j → gameName i = gameName j → i = j) := by
  refine ⟨_, parseLogFile_eq lines, ?_, ?_, ?_⟩
  · intro k
    have hI := inv_afterLines lines
    simp only [hI.keys, List.mem_reverse, List.mem_map, List.mem_range]
    constructor
    · rintro ⟨i, hi, rfl⟩
      exact ⟨i + 1, by omega, by omega, by push_cast; rfl⟩
    · rintro ⟨i, h1, h2, rfl⟩
      refine ⟨i - 1, by omega, ?_⟩
      have : ((i - 1 : Nat) : Int) + 1 = (i : Int) := by omega
      rw [this]
  · have hI := inv_afterLines lines
    simp [hI.keys]
  · intro i j hi hj h
    exact gameName_inj i j (by omega) (by omega) h

/-- C5, as stated, fails.  In a game where `Dono` has one kill and is not in `Players`, a
world kill of `Dono` on a line that also announces `Dono` takes `Kills[Dono]` from 1 to -1;
on a line that also carries the init marker it leaves `Kills[Dono]` of the game that was
current at 1 and makes a new current game with `Kills[Dono] = -1`. -/
theorem dual_marker_world_death :
    killEvent announceAndWorldKillLine
        = some { attacker := lit "<world>", victim := lit "Dono", cause := lit "MOD_TRIGGER_HURT" }
    ∧ killEvent initAndWorldKillLine
        = some { attacker := lit "<world>", victim := lit "Dono", cause := lit "MOD_TRIGGER_HURT" }
    ∧ (scan ParseState.init killFirstLog).map
        (fun st => st.currentGame.map (fun g => st.heap.read g.Kills (lit "Dono")))
      = some (some 1)
    ∧ (scan ParseState.init killFirstLog).bind
        (fun st => (processLine st announceAndWorldKillLine).map
          (fun st' => (st.currentGame.map (fun g => st'.heap.read g.Kills (lit "Dono")),
            st'.currentGame.map (fun g' => st'.heap.read g'.Kills (lit "Dono")))))
      = some (some (-1), some (-1))
    ∧ (scan ParseState.init killFirstLog).bind
        (fun st => (processLine st initAndWorldKillLine).map
          (fun st' => (st.currentGame.map (fun g => st'.heap.read g.Kills (lit "Dono")),
            st'.currentGame.map (fun g' => st'.heap.read g'.Kills (lit "Dono")))))
      = some (some 1, some (-1)) := by
  decide

/-- C5, amended: in every state the parser reaches that has a current game, a successfully
parsed kill line whose attacker is `<world>`, which does not contain `InitGame:` and which
announces no name that is missing from the `Players` of the current game, lowers
`Kills[victim]` of the current game by exactly 1 (from 0 when the entry is missing), leaves
every other entry of that map unchanged and raises no tally; the game stays the current
one. -/
theorem world_death_lowers_victim (pre : List Str) (st : ParseState) (g : Game) (line : Str)
    (e : KillEvent)
    (hst : scan ParseState.init pre = some st) (hcur : st.currentGame = some g)
    (hi : isInit line = false)
    (hp : ∀ p, announced line = some p → contains g.Players p = true)
    (he : killEvent line = some e) (hw : e.attacker = lit "<world>") :
    ∃ st', processLine st line = some st'
      ∧ (∃ g', st'.currentGame = some g' ∧ g'.Kills = g.Kills)
      ∧ st'.heap.read g.Kills e.victim = st.heap.read g.Kills e.victim - 1
      ∧ (∀ p, p ≠ e.victim → (st'.heap g.Kills).lookup p = (st.heap g.Kills).lookup p)
      ∧ (∀ p, st'.heap.read g.Kills p ≤ st.heap.read g.Kills p) := by
  have hd := reached_distinct pre st g hst hcur
  have h0 : afterInit st line = st := by simp [afterInit, hi]
  have hpe : playerEffect st.heap g line = (st.heap, g) := by
    unfold playerEffect
    cases ha : announced line with
    | none => rfl
    | some p => simp [hp p ha]
  have hline : afterLine st line =
      { st with heap := (killEffect st.heap g line).1
                currentGame := some (killEffect st.heap g line).2 } := by
    simp [afterLine, h0, hcur, lineEffect, hpe]
  have hk : (killEffect st.heap g line).1 g.Kills
      = (st.heap g.Kills).insert e.victim ((st.heap g.Kills).get e.victim - 1) := by
    simp [killEffect, he, hw, Heap.read, heap_write_same, heap_write_other _ _ _ _ _ hd]
  refine ⟨_, processLine_eq st line, ?_, ?_, ?_, ?_⟩
  · rw [hline]
    exact ⟨_, rfl, (killEffect_addr st.heap g line).1⟩
  · rw [hline]
    simp only [Heap.read, hk]
    exact get_insert_same _ _ _
  · intro p hpv
    rw [hline]
    simp only [hk]
    exact AList.lookup_insert_ne hpv
  · intro p
    rw [hline]
    simp only [Heap.read, hk]
    by_cases hpv : p = e.victim
    · subst hpv
      rw [get_insert_same]
      omega
    · rw [get_insert_other _ _ _ _ hpv]

/-- A world kill of `Dono` on a line that also announces `Dono`, in a game where `Dono` is
already in `Players`: `Kills[Dono]` goes from 0 to -1. -/
theorem world_death_lowers_victim_witness :
    killEvent announceAndWorldKillLine
        = some { attacker := lit "<world>", victim := lit "Dono", cause := lit "MOD_TRIGGER_HURT" }
    ∧ announced announceAndWorldKillLine = some (lit "Dono")
    ∧ (afterLines ParseState.init announcedLog).currentGame
        = some { TotalKills := 0, Players := [lit "Dono"], Kills := 0, KillsByMeans := 1 }
    ∧ ∃ st', processLine (afterLines ParseState.init announcedLog) announceAndWorldKillLine
          = some st'
      ∧ (∃ g', st'.currentGame = some g' ∧ g'.Kills = 0)
      ∧ st'.heap.read 0 (lit "Dono")
          = (afterLines ParseState.init announcedLog).heap.read 0 (lit "Dono") - 1
      ∧ (∀ p, p ≠ lit "Dono" →
          (st'.heap 0).lookup p = ((afterLines ParseState.init announcedLog).heap 0).lookup p)
      ∧ (∀ p, st'.heap.read 0 p ≤ (afterLines ParseState.init announcedLog).heap.read 0 p) :=
  ⟨by decide, by decide, by decide,
    world_death_lowers_victim announcedLog (afterLines ParseState.init announcedLog)
      { TotalKills := 0, Players := [lit "Dono"], Kills := 0, KillsByMeans := 1 }
      announceAndWorldKillLine
      { attacker := lit "<world>", victim := lit "Dono", cause := lit "MOD_TRIGGER_HURT" }
      (scan_eq _ _) (by decide) (by decide)
      (fun p h => by
        have ha : announced announceAndWorldKillLine = some (lit "Dono") := by decide
        rw [ha] at h
        cases h
        decide)
      (by decide) rfl⟩

/-- C6, as stated, fails.  `Dono` kills once and is announced afterwards: the span of
`game_1` has one kill line with attacker `Dono` and no world death of `Dono`, and the
returned `Kills[Dono]` is 0, the announcement having set it back. -/
theorem late_announcement_resets :
    spans lateAnnouncedLog = [lateAnnouncedLog]
    ∧ attackCount lateAnnouncedLog (lit "Dono") = 1
    ∧ worldDeathCount lateAnnouncedLog (lit "Dono") = 0
    ∧ (parseLogFile lateAnnouncedLog).map
        (fun r => (r.1.lookup (gameName 1)).map (fun g => (r.2 g.Kills).lookup (lit "Dono")))
      = some (some (some 0)) := by
  decide

/-- C6, amended: for every sequence of lines, every game of the returned collection and every
key `p` of its `Kills` map, `Kills[p]` is the number of successfully parsed kill lines whose
attacker is `p` and not `<world>`, less the number of those whose attacker is `<world>` and
whose victim is `p`, both counted over the lines of the game's span from the first line that
announces `p` on (that line included), or over the whole span when none announces `p`. -/
theorem net_kills_since_announced (lines : List Str) :
    ∃ r, parseLogFile lines = some r ∧ ∀ k g, r.1.lookup k = some g →
      ∃ (i : Nat) (S : List Str), (spans lines)[i]? = some S ∧ k = gameName ((i : Int) + 1)
        ∧ ∀ p, p ∈ (r.2 g.Kills).keys →
          (r.2 g.Kills).get p
            = (attackCount (sinceAnnounced S p) p : Int) - worldDeathCount (sinceAnnounced S p) p := by
  refine ⟨_, parseLogFile_eq lines, ?_⟩
  intro k g h
  obtain ⟨i, S, hS, hk, -, hK, -⟩ := returned_game lines k g h
  refine ⟨i, S, hS, hk, ?_⟩
  intro p _
  dsimp only
  rw [hK, ofSpan_kills_get]
  rfl

/-- C7: for every sequence of lines, every game of the returned collection and every label
`c`, `KillsByMeans[c]` (0 when `c` is not a key) is the number of successfully parsed kill
lines of the game's span whose death cause is `c`, and the values of `KillsByMeans` sum to
the number of successfully parsed kill lines of the span. -/
theorem kills_by_means (lines : List Str) :
    ∃ r, parseLogFile lines = some r ∧ ∀ k g, r.1.lookup k = some g →
      ∃ (i : Nat) (S : List Str), (spans lines)[i]? = some S ∧ k = gameName ((i : Int) + 1)
        ∧ (∀ c, (r.2 g.KillsByMeans).get c = causeCount S c)
        ∧ (r.2 g.KillsByMeans).total = killCount S := by
  refine ⟨_, parseLogFile_eq lines, ?_⟩
  intro k g h
  obtain ⟨i, S, hS, hk, -, -, hM⟩ := returned_game lines k g h
  refine ⟨i, S, hS, hk, ?_, ?_⟩
  · intro c
    dsimp only
    rw [hM, ofSpan_killsByMeans_get]
  · dsimp only
    rw [hM, ofSpan_killsByMeans_total]

/-- C8, as stated, fails.  After an `InitGame:` line, the line
`Kill: 1 2 3: <world> killed Dono ` contains `Kill:` and neither of the other markers, and
its message segment has three whitespace-separated tokens; it splits at its spaces into four
pieces, the last one empty, and the kill is counted: `TotalKills` of the current game goes
from 0 to 1, `Kills[Dono]` to -1 and `KillsByMeans` of the empty label to 1. -/
theorem trailing_space_kill_counted :
    strings.Contains trailingSpaceKillLine (lit "Kill:") = true
    ∧ isInit trailingSpaceKillLine = false ∧ isPlayerInfo trailingSpaceKillLine = false
    ∧ whitespaceTokens (messageSegment trailingSpaceKillLine)
        = [lit "<world>", lit "killed", lit "Dono"]
    ∧ messageTokens trailingSpaceKillLine = [lit "<world>", lit "killed", lit "Dono", []]
    ∧ (scan ParseState.init [lit "InitGame:"]).map
        (fun st => st.currentGame.map (fun g => g.TotalKills)) = some (some 0)
    ∧ (scan ParseState.init [lit "InitGame:"]).map
        (fun st => st.currentGame.map (fun g => (st.heap g.Kills).pairs)) = some (some [])
    ∧ (scan ParseState.init [lit "InitGame:"]).map
        (fun st => st.currentGame.map (fun g => (st.heap g.KillsByMeans).pairs))
      = some (some [])
    ∧ (scan ParseState.init [lit "InitGame:"]).bind
        (fun st => (processLine st trailingSpaceKillLine).map
          (fun st' => st'.currentGame.map (fun g => g.TotalKills))) = some (some 1)
    ∧ (scan ParseState.init [lit "InitGame:"]).bind
        (fun st => (processLine st trailingSpaceKillLine).map
          (fun st' => st'.currentGame.map (fun g => (st'.heap g.Kills).pairs)))
      = some (some [(lit "Dono", -1)])
    ∧ (scan ParseState.init [lit "InitGame:"]).bind
        (fun st => (processLine st trailingSpaceKillLine).map
          (fun st' => st'.currentGame.map (fun g => (st'.heap g.KillsByMeans).pairs)))
      = some (some [([], 1)]) := by
  decide

/-- C8, amended: in a state with a current game, a line that contains `Kill:`, neither
`InitGame:` nor `ClientUserinfoChanged`, and whose message segment splits at its single
spaces into fewer than 4 pieces (empty pieces included) is processed without panic and
leaves the current game's `TotalKills`, `Kills` and `KillsByMeans` as they were. -/
theorem malformed_kill (st : ParseState) (g : Game) (line : Str)
    (hcur : st.currentGame = some g) (_hk : strings.Contains line (lit "Kill:") = true)
    (hi : isInit line = false) (hp : isPlayerInfo line = false)
    (ht : (messageTokens line).length < 4) :
    ∃ st' g', processLine st line = some st' ∧ st'.currentGame = some g'
      ∧ g'.TotalKills = g.TotalKills
      ∧ st'.heap g'.Kills = st.heap g.Kills
      ∧ st'.heap g'.KillsByMeans = st.heap g.KillsByMeans := by
  have h0 : afterInit st line = st := by simp [afterInit, hi]
  have ha : announced line = none := by simp [announced, hp]
  have he : killEvent line = none := by
    have : ¬ 4 ≤ (messageTokens line).length := by omega
    simp [killEvent, this]
  have hline : afterLine st line = st := by
    have h1 : afterLine st line = { st with heap := st.heap, currentGame := some g } := by
      simp [afterLine, h0, hcur, lineEffect, playerEffect, killEffect, ha, he]
    rw [h1, ← hcur]
  refine ⟨st, g, ?_, hcur, rfl, rfl, rfl⟩
  rw [processLine_eq, hline]

/-- A kill line with three tokens, after one `InitGame:` line. -/
theorem malformed_kill_witness :
    (messageTokens shortKillLine).length = 3
    ∧ ∃ st' g', processLine (initGame ParseState.init) shortKillLine = some st'
      ∧ st'.currentGame = some g'
      ∧ g'.TotalKills = 0
      ∧ st'.heap g'.Kills = (initGame ParseState.init).heap 0
      ∧ st'.heap g'.KillsByMeans = (initGame ParseState.init).heap 1 :=
  ⟨by decide,
    malformed_kill (initGame ParseState.init)
      { TotalKills := 0, Players := [], Kills := 0, KillsByMeans := 1 } shortKillLine
      rfl (by decide) (by decide) (by decide) (by decide)⟩

/-- C9: lines in front of the first init marker are ignored: when no line of `P` contains
`InitGame:`, parsing `P` followed by `R` returns what parsing `R` returns, parsing `P` alone
returns the empty collection, and `garbage` followed by an `InitGame:` line gives exactly one
game. -/
theorem lines_before_first_init (P R : List Str) (h : ∀ l ∈ P, isInit l = false) :
    (∃ r, parseLogFile R = some r ∧ parseLogFile (P ++ R) = some r)
    ∧ (parseLogFile P).map (fun r => r.1) = some ∅
    ∧ (parseLogFile [lit "garbage", lit "InitGame:"]).map (fun r => r.1.keys)
      = some [lit "game_1"] := by
  refine ⟨⟨_, parseLogFile_eq R, ?_⟩, ?_, by decide⟩
  · rw [parseLogFile_eq, afterLines_append, afterLines_no_init P h]
  · rw [parseLogFile_eq, afterLines_no_init P h]
    rfl

/-- The line `garbage` in front of an `InitGame:` line. -/
theorem lines_before_first_init_witness :
    (∀ l ∈ [lit "garbage"], isInit l = false)
    ∧ (∃ r, parseLogFile [lit "InitGame:"] = some r
        ∧ parseLogFile ([lit "garbage"] ++ [lit "InitGame:"]) = some r)
    ∧ (parseLogFile [lit "garbage"]).map (fun r => r.1) = some ∅
    ∧ (parseLogFile [lit "garbage", lit "InitGame:"]).map (fun r => r.1.keys)
      = some [lit "game_1"] :=
  ⟨by decide, lines_before_first_init [lit "garbage"] [lit "InitGame:"] (by decide)⟩

/-- C10, as stated, fails.  For two games with `Kills = {A: 9223372036854775807}` and
`Kills = {A: 1}` the exact sum is 9223372036854775808, and the ranking has `A` with
-9223372036854775808: the sum of two `int`s wraps around. -/
theorem ranking_sum_overflows :
    (twoGames.entries.map (fun game => (overflowHeap game.2.Kills).pairs))
        = [[(lit "A", 1)], [(lit "A", 9223372036854775807)]]
    ∧ (twoGames.entries.map (fun game => (overflowHeap game.2.Kills).get (lit "A"))).sum
        = 9223372036854775808
    ∧ generateRanking RangeOrder.stored overflowHeap twoGames
        = [{ Name := lit "A", Kills := -9223372036854775808 }] := by
  decide

/-- C10, amended: every entry of the ranking carries, as its total, the sum over all games
of the collection of the value of its name in the game's `Kills` map (0 where the name is
not a key), reduced to the 64 bits of Go's `int`; the total is the exact sum whenever the
exact sum lies between `-2 ^ 63` and `2 ^ 63 - 1`; this holds whatever the order in which the
maps are ranged over. -/
theorem ranking_sum_wrapped (ro : RangeOrder) (heap : Heap) (games : GameCollection)
    (e : PlayerRank) (he : e ∈ generateRanking ro heap games) :
    e.Kills = wrapInt ((games.entries.map (fun game => (heap game.2.Kills).get e.Name)).sum)
    ∧ (-9223372036854775808
          ≤ (games.entries.map (fun game => (heap game.2.Kills).get e.Name)).sum →
        (games.entries.map (fun game => (heap game.2.Kills).get e.Name)).sum
          ≤ 9223372036854775807 →
        e.Kills = (games.entries.map (fun game => (heap game.2.Kills).get e.Name)).sum) := by
  have h := (mem_generateRanking ro heap games e).mp he
  have hk : e.Kills
      = wrapInt ((games.entries.map (fun game => (heap game.2.Kills).get e.Name)).sum) := by
    rw [← accumulateKills_get ro heap games e.Name]
    simp [GoMap.get, h]
  refine ⟨hk, fun h₁ h₂ => ?_⟩
  rw [hk]
  exact wrapInt_of_range _ h₁ (by omega)

/-- In a collection of two games with `Dono: -1` and `Dono: 3`, the ranking has `Dono` with
2. -/
theorem ranking_sum_wrapped_witness :
    ({ Name := lit "Dono", Kills := 2 } : PlayerRank)
        ∈ generateRanking RangeOrder.stored twoGamesHeap twoGames
    ∧ (twoGames.entries.map (fun game => (twoGamesHeap game.2.Kills).get (lit "Dono"))).sum = 2
    ∧ (2 : Int)
        = wrapInt
          ((twoGames.entries.map (fun game => (twoGamesHeap game.2.Kills).get (lit "Dono"))).sum)
    ∧ (-9223372036854775808
          ≤ (twoGames.entries.map
              (fun game => (twoGamesHeap game.2.Kills).get (lit "Dono"))).sum →
        (twoGames.entries.map (fun game => (twoGamesHeap game.2.Kills).get (lit "Dono"))).sum
          ≤ 9223372036854775807 →
        (2 : Int)
          = (twoGames.entries.map
              (fun game => (twoGamesHeap game.2.Kills).get (lit "Dono"))).sum) :=
  ⟨by decide, by decide,
    ranking_sum_wrapped RangeOrder.stored twoGamesHeap twoGames
      { Name := lit "Dono", Kills := 2 } (by decide)⟩

/-! ## The order and the names of the ranking -/

theorem generateRanking_perm (ro : RangeOrder) (heap : Heap) (games : GameCollection) :
    (generateRanking ro heap games).Perm
      ((accumulateKills ro heap games).entries.map (fun e => PlayerRank.mk e.1 e.2)) := by
  unfold generateRanking sortSlice
  exact (List.perm_insertionSort _ _).trans ((ro.perm _).map _)

theorem generateRanking_names_perm (ro : RangeOrder) (heap : Heap) (games : GameCollection) :
    ((generateRanking ro heap games).map PlayerRank.Name).Perm
      (accumulateKills ro heap games).keys := by
  have h := (generateRanking_perm ro heap games).map PlayerRank.Name
  simpa [AList.keys, List.keys, Function.comp_def] using h

theorem sortSlice_sorted (xs : List PlayerRank) :
    (sortSlice (fun a b => decide (a.Kills > b.Kills)) xs).Pairwise
      (fun a b => b.Kills ≤ a.Kills) := by
  unfold sortSlice
  haveI : IsTotal PlayerRank (fun a b => decide (b.Kills > a.Kills) = false) :=
    ⟨fun a b => by simp only [decide_eq_false_iff_not, not_lt, gt_iff_lt]; omega⟩
  haveI : IsTrans PlayerRank (fun a b => decide (b.Kills > a.Kills) = false) :=
    ⟨fun a b c => by simp only [decide_eq_false_iff_not, not_lt, gt_iff_lt]; omega⟩
  have h := List.sorted_insertionSort (fun a b : PlayerRank => decide (b.Kills > a.Kills) = false) xs
  refine List.Pairwise.imp ?_ h
  intro a b hab
  simpa using hab

theorem mem_keys_addKills (tk : GoMap) (player : Str) (kills : Int) (k : Str) :
    k ∈ (addKills tk player kills).keys ↔ k = player ∨ k ∈ tk.keys := by
  unfold addKills
  rw [← AList.mem_keys, AList.mem_insert, AList.mem_keys]

theorem mem_keys_foldl_addKills (l : List (Sigma (fun _ : Str => Int))) (tk : GoMap)
    (k : Str) :
    k ∈ (l.foldl (fun totalKills e => addKills totalKills e.1 e.2) tk).keys
      ↔ k ∈ tk.keys ∨ k ∈ l.keys := by
  induction l generalizing tk with
  | nil => simp
  | cons e t ih =>
    rw [List.foldl_cons, ih, mem_keys_addKills]
    simp only [List.keys_cons, List.mem_cons]
    tauto

theorem mem_keys_range_kills (ro : RangeOrder) (m tk : GoMap) (k : Str) :
    k ∈ ((ro.visit m.entries).foldl
        (fun totalKills e => addKills totalKills e.1 e.2) tk).keys
      ↔ k ∈ tk.keys ∨ k ∈ m.keys := by
  rw [mem_keys_foldl_addKills]
  have hp : (ro.visit m.entries).keys.Perm m.entries.keys := (ro.perm m.entries).map _
  rw [hp.mem_iff]
  rfl

theorem mem_keys_foldl_games (ro : RangeOrder) (heap : Heap)
    (gs : List (Sigma (fun _ : Str => Game))) (tk : GoMap) (k : Str) :
    k ∈ (gs.foldl
      (fun totalKills game =>
        (ro.visit (heap game.2.Kills).entries).foldl
          (fun totalKills e => addKills totalKills e.1 e.2) totalKills) tk).keys
      ↔ k ∈ tk.keys ∨ ∃ game ∈ gs, k ∈ (heap game.2.Kills).keys := by
  induction gs generalizing tk with
  | nil => simp
  | cons game t ih =>
    rw [List.foldl_cons, ih, mem_keys_range_kills]
    simp only [List.mem_cons, exists_eq_or_imp]
    tauto

theorem mem_keys_accumulateKills (ro : RangeOrder) (heap : Heap) (games : GameCollection)
    (k : Str) :
    k ∈ (accumulateKills ro heap games).keys
      ↔ ∃ game ∈ games.entries, k ∈ (heap game.2.Kills).keys := by
  unfold accumulateKills
  rw [mem_keys_foldl_games]
  have : k ∉ (∅ : GoMap).keys := by simp
  simp only [this, false_or]
  constructor
  · rintro ⟨game, hg, hk⟩
    exact ⟨game, (ro.perm _).mem_iff.mp hg, hk⟩
  · rintro ⟨game, hg, hk⟩
    exact ⟨game, (ro.perm _).mem_iff.mpr hg, hk⟩

theorem visit_singleton (ro : RangeOrder) {α : Type} (a : α) : ro.visit [a] = [a] :=
  List.perm_singleton.mp (ro.perm [a])

theorem visit_nil (ro : RangeOrder) {α : Type} : ro.visit ([] : List α) = [] :=
  List.perm_nil.mp (ro.perm [])

theorem filter_name_length_eq_one (l : List PlayerRank) (name : Str)
    (hnd : (l.map PlayerRank.Name).Nodup) (hm : name ∈ l.map PlayerRank.Name) :
    (l.filter (fun e => decide (e.Name = name))).length = 1 := by
  induction l with
  | nil => simp at hm
  | cons e t ih =>
    rw [List.map_cons, List.nodup_cons] at hnd
    by_cases he : e.Name = name
    · have hnil : t.filter (fun e => decide (e.Name = name)) = [] := by
        rw [List.filter_eq_nil_iff]
        intro x hx hxe
        exact hnd.1 (List.mem_map.mpr ⟨x, hx, by rw [he]; simpa using hxe⟩)
      simp [List.filter_cons, he, hnil]
    · have hm' : name ∈ t.map PlayerRank.Name := by
        rcases List.mem_cons.mp hm with h | h
        · exact absurd h.symm he
        · exact h
      simp [List.filter_cons, he, ih hnd.2 hm']

/-- C11: the ranking is in descending order of `Kills`: of two entries, the one at the later
position has at most the `Kills` of the one at the earlier position, whatever the order in
which the maps are ranged over. -/
theorem ranking_descending (ro : RangeOrder) (heap : Heap) (games : GameCollection)
    (i j : Nat) (a b : PlayerRank) (hij : i < j)
    (hi : (generateRanking ro heap games)[i]? = some a)
    (hj : (generateRanking ro heap games)[j]? = some b) :
    a.Kills ≥ b.Kills := by
  have hs : (generateRanking ro heap games).Pairwise (fun a b => b.Kills ≤ a.Kills) :=
    sortSlice_sorted _
  rw [List.pairwise_iff_getElem] at hs
  obtain ⟨hi', rfl⟩ := List.getElem?_eq_some_iff.mp hi
  obtain ⟨hj', rfl⟩ := List.getElem?_eq_some_iff.mp hj
  exact hs i j hi' hj' hij

/-- In the collection of two games the ranking has `Dono` with 2 in front of `Zeh` with 1. -/
theorem ranking_descending_witness :
    (generateRanking RangeOrder.stored twoGamesHeap twoGames)[0]?
        = some { Name := lit "Dono", Kills := 2 }
    ∧ (generateRanking RangeOrder.stored twoGamesHeap twoGames)[1]?
        = some { Name := lit "Zeh", Kills := 1 }
    ∧ (2 : Int) ≥ 1 :=
  ⟨by decide, by decide,
    ranking_descending RangeOrder.stored twoGamesHeap twoGames 0 1
      { Name := lit "Dono", Kills := 2 } { Name := lit "Zeh", Kills := 1 }
      (by decide) (by decide) (by decide)⟩

/-- C12: the ranking has exactly one entry for each name that is a key of the `Kills` map of
at least one game of the collection, no entry for any other name, and no entry at all for the
empty collection, whatever the order in which the maps are ranged over. -/
theorem ranking_names (ro : RangeOrder) (heap : Heap) (games : GameCollection) :
    (∀ name, (∃ game ∈ games.entries, name ∈ (heap game.2.Kills).keys) →
        ((generateRanking ro heap games).filter (fun e => decide (e.Name = name))).length = 1)
    ∧ (∀ e ∈ generateRanking ro heap games,
        ∃ game ∈ games.entries, e.Name ∈ (heap game.2.Kills).keys)
    ∧ generateRanking ro heap ∅ = [] := by
  have hp := generateRanking_names_perm ro heap games
  refine ⟨?_, ?_, ?_⟩
  · intro name hn
    apply filter_name_length_eq_one
    · exact hp.nodup_iff.mpr (AList.keys_nodup _)
    · exact hp.mem_iff.mpr ((mem_keys_accumulateKills ro heap games name).mpr hn)
  · intro e he
    apply (mem_keys_accumulateKills ro heap games e.Name).mp
    exact hp.mem_iff.mp (List.mem_map_of_mem _ he)
  · have h0 : accumulateKills ro heap ∅ = ∅ := by
      unfold accumulateKills
      have : (∅ : GameCollection).entries = [] := rfl
      rw [this, visit_nil]
      rfl
    unfold generateRanking
    simp only [h0]
    have : (∅ : GoMap).entries = [] := rfl
    rw [this, visit_nil]
    rfl

/-- C13: for the collection parsed from the three lines of the end-to-end example the ranking
is the single entry `Dono` with -1, whatever the order in which the maps are ranged over. -/
theorem example_ranking :
    ∃ r, parseLogFile exampleLog = some r
      ∧ ∀ ro, generateRanking ro r.2 r.1 = [{ Name := lit "Dono", Kills := -1 }] := by
  refine ⟨_, parseLogFile_eq exampleLog, ?_⟩
  intro ro
  have hg : (afterLines ParseState.init exampleLog).games.entries
      = [⟨lit "game_1", { TotalKills := 0, Players := [], Kills := 0, KillsByMeans := 1 }⟩] := by
    rfl
  have hk : ((afterLines ParseState.init exampleLog).heap 0).entries
      = [⟨lit "Dono", -1⟩] := by
    rfl
  have ha : accumulateKills ro (afterLines ParseState.init exampleLog).heap
      (afterLines ParseState.init exampleLog).games
      = (∅ : GoMap).insert (lit "Dono") (-1) := by
    unfold accumulateKills
    rw [hg, visit_singleton]
    simp only [List.foldl_cons, List.foldl_nil]
    rw [hk, visit_singleton]
    rfl
  unfold generateRanking
  simp only [ha]
  have he : ((∅ : GoMap).insert (lit "Dono") (-1)).entries = [⟨lit "Dono", -1⟩] := rfl
  rw [he, visit_singleton]
  rfl

/-! ## Lines that change nothing, totality, closed games -/

theorem afterLine_inert (st : ParseState) (x : Str) (hi : isInit x = false)
    (ha : announced x = none) (he : killEvent x = none) : afterLine st x = st := by
  have h0 : afterInit st x = st := by simp [afterInit, hi]
  cases hcur : st.currentGame with
  | none => simp [afterLine, h0, hcur]
  | some g =>
    have h1 : afterLine st x = { st with heap := st.heap, currentGame := some g } := by
      simp [afterLine, h0, hcur, lineEffect, playerEffect, killEffect, ha, he]
    rw [h1, ← hcur]

theorem announced_eq_none_of_not_playerInfo (x : Str) (hp : isPlayerInfo x = false) :
    announced x = none := by
  simp [announced, hp]

theorem killEvent_eq_none_of_not_kill (x : Str)
    (hk : strings.Contains x (lit "Kill:") = false) : killEvent x = none := by
  simp [killEvent, hk]

/-- C14: a line that contains none of `InitGame:`, `ClientUserinfoChanged` and `Kill:` is
inert: inserted at any position of a sequence of lines, it leaves what the parser returns
unchanged. -/
theorem inert_line (A B : List Str) (x : Str) (hi : isInit x = false)
    (hp : isPlayerInfo x = false) (hk : strings.Contains x (lit "Kill:") = false) :
    ∃ r, parseLogFile (A ++ B) = some r ∧ parseLogFile (A ++ x :: B) = some r := by
  refine ⟨_, parseLogFile_eq (A ++ B), ?_⟩
  rw [parseLogFile_eq, afterLines_append, afterLines_append]
  have hx : afterLines (afterLines ParseState.init A) (x :: B)
      = afterLines (afterLine (afterLines ParseState.init A) x) B := rfl
  rw [hx, afterLine_inert _ x hi (announced_eq_none_of_not_playerInfo x hp)
    (killEvent_eq_none_of_not_kill x hk)]

/-- An inert line between the `InitGame:` line and the kill line of a game. -/
theorem inert_line_witness :
    isInit inertLine = false ∧ isPlayerInfo inertLine = false
    ∧ strings.Contains inertLine (lit "Kill:") = false
    ∧ ∃ r, parseLogFile ([lit "InitGame:"] ++ [worldKillLine]) = some r
      ∧ parseLogFile ([lit "InitGame:"] ++ inertLine :: [worldKillLine]) = some r :=
  ⟨by decide, by decide, by decide,
    inert_line [lit "InitGame:"] [worldKillLine] inertLine (by decide) (by decide)
      (by decide)⟩

theorem scanLines_err (fileLines : List Str) :
    (scanLines fileLines).2 = none ↔ ∀ l ∈ fileLines, l.length < maxScanTokenSize := by
  induction fileLines with
  | nil => simp [scanLines]
  | cons raw rest ih =>
    unfold scanLines
    by_cases h : maxScanTokenSize ≤ raw.length
    · simp only [h, if_true, List.mem_cons, forall_eq_or_imp]
      constructor
      · intro hn; cases hn
      · intro hall; omega
    · simp only [h, if_false, List.mem_cons, forall_eq_or_imp, ih]
      constructor
      · intro hall; exact ⟨by omega, hall⟩
      · intro hall; exact hall.2

theorem scanLines_of_short (fileLines : List Str)
    (h : ∀ l ∈ fileLines, l.length < maxScanTokenSize) :
    (scanLines fileLines).1 = fileLines.map dropCR := by
  induction fileLines with
  | nil => rfl
  | cons raw rest ih =>
    have h1 : ¬ maxScanTokenSize ≤ raw.length := by
      have := h raw (List.mem_cons_self _ _)
      omega
    unfold scanLines
    simp only [h1, if_false, List.map_cons]
    rw [ih (fun l hl => h l (List.mem_cons_of_mem _ hl))]

/-- C16, as stated, fails.  A file whose only line has 65536 bytes makes the parse report an
error: that line is not delivered, the returned collection is empty and `scanner.Err()` is
`ErrTooLong`, which `parseLogFile` returns. -/
theorem overlong_line_reports_error :
    overlongLine.length = 65536
    ∧ (parseLogFileWithErr [overlongLine]).map (fun r => (r.1.1.keys, r.2))
      = some ([], some ScanError.tooLong) := by
  have hl : overlongLine.length = 65536 := List.length_replicate _ _
  have hs : scanLines [overlongLine] = ([], some ScanError.tooLong) := by
    unfold scanLines
    rw [hl]
    rfl
  refine ⟨hl, ?_⟩
  unfold parseLogFileWithErr
  rw [hs]
  rfl

/-- C16, amended: the parser never panics, and it reports an error exactly for a line of
65536 bytes or more.  One iteration of the scan loop returns a state from every state and
for every line, each of the two blocks does, and every index expression is within bounds
under the guard it is reached through; the parse of every file returns a collection; the
error it returns with it is nil exactly when every line of the file has fewer than 65536
bytes, and then the collection is that of all the lines. -/
theorem parser_total_short_lines :
    (∀ (st : ParseState) (line : Str), ∃ st', processLine st line = some st')
    ∧ (∀ (heap : Heap) (g : Game) (line : Str),
        (playerBranch heap g line).isSome = true ∧ (killBranch heap g line).isSome = true)
    ∧ (∀ (fields : List Str), fields.length > 1 → (index fields 1).isSome = true)
    ∧ (∀ (parts : List Str), ¬ parts.length < 3 →
        (index parts ((parts.length : Int) - 1)).isSome = true)
    ∧ (∀ (killParts : List Str), killParts.length ≥ 4 →
        (index killParts 0).isSome = true ∧ (index killParts 2).isSome = true
          ∧ (index killParts ((killParts.length : Int) - 1)).isSome = true)
    ∧ (∀ (lines : List Str), ∃ r, parseLogFile lines = some r)
    ∧ (∀ (fileLines : List Str), ∃ r err, parseLogFileWithErr fileLines = some (r, err)
        ∧ (err = none ↔ ∀ l ∈ fileLines, l.length < 65536)
        ∧ ((∀ l ∈ fileLines, l.length < 65536) →
            parseLogFile (fileLines.map dropCR) = some r)) := by
  refine ⟨fun st line => ⟨_, processLine_eq st line⟩, ?_, ?_, ?_, ?_,
    fun lines => ⟨_, parseLogFile_eq lines⟩, ?_⟩
  · intro heap g line
    rw [playerBranch_eq, killBranch_eq]
    exact ⟨rfl, rfl⟩
  · intro fields h
    have h1 : index fields 1 = some (fields.getD 1 []) := index_getD fields 1 [] h
    rw [h1]
    rfl
  · intro parts h
    rw [index_last parts [] (by omega)]
    rfl
  · intro killParts h
    have h0 : index killParts 0 = some (killParts.getD 0 []) :=
      index_getD killParts 0 [] (by omega)
    have h2 : index killParts 2 = some (killParts.getD 2 []) :=
      index_getD killParts 2 [] (by omega)
    rw [h0, h2, index_last killParts [] (by omega)]
    exact ⟨rfl, rfl, rfl⟩
  · intro fileLines
    have hm : maxScanTokenSize = 65536 := rfl
    refine ⟨((afterLines ParseState.init (scanLines fileLines).1).games,
      (afterLines ParseState.init (scanLines fileLines).1).heap), (scanLines fileLines).2,
      ?_, ?_, ?_⟩
    · unfold parseLogFileWithErr
      rw [parseLogFile_eq]
      rfl
    · rw [scanLines_err, hm]
    · intro hall
      rw [← scanLines_of_short fileLines (by rw [hm]; exact hall), parseLogFile_eq]

theorem takeWhile_append_cons_of_false (p : Str → Bool) (A B : List Str) (b : Str)
    (h : p b = false) : (A ++ b :: B).takeWhile p = A.takeWhile p := by
  induction A with
  | nil => simp [List.takeWhile, h]
  | cons a A ih =>
    by_cases ha : p a = true
    · simp [List.takeWhile_cons, ha, ih]
    · simp [List.takeWhile_cons, ha]

theorem spans_append_init (A B : List Str) (b : Str) (hb : isInit b = true) :
    spans (A ++ b :: B) = spans A ++ spans (b :: B) := by
  induction A with
  | nil => simp [spans]
  | cons a A ih =>
    by_cases ha : isInit a = true
    · rw [List.cons_append, spans_cons_init _ _ ha, spans_cons_init _ _ ha, ih,
        takeWhile_append_cons_of_false (fun l => !isInit l) A B b (by simp [hb])]
      rfl
    · simp only [Bool.not_eq_true] at ha
      rw [List.cons_append, spans_cons_other _ _ ha, spans_cons_other _ _ ha, ih]

/-- C17: a later init marker closes the earlier games: when the line `b` contains
`InitGame:`, every game that parsing `A` returns is returned by parsing `A` followed by `b`
and any lines `B` under the same key, with the same struct (`TotalKills`, `Players` and the
two map references) and the same contents of `Kills` and `KillsByMeans`. -/
theorem closed_games (A B : List Str) (b : Str) (hb : isInit b = true) :
    ∃ rA rAB, parseLogFile A = some rA ∧ parseLogFile (A ++ b :: B) = some rAB
      ∧ ∀ k g, rA.1.lookup k = some g →
        rAB.1.lookup k = some g ∧ rAB.2 g.Kills = rA.2 g.Kills
          ∧ rAB.2 g.KillsByMeans = rA.2 g.KillsByMeans := by
  refine ⟨_, _, parseLogFile_eq A, parseLogFile_eq (A ++ b :: B), ?_⟩
  intro k g h
  obtain ⟨i, S, hS, hk, hg, hK, hM⟩ := returned_game A k g h
  have hI := inv_afterLines (A ++ b :: B)
  have hlt : i < (spans A).length := (List.getElem?_eq_some_iff.mp hS).1
  have hS' : (spans (A ++ b :: B))[i]? = some S := by
    rw [spans_append_init A B b hb, List.getElem?_append_left hlt]
    exact hS
  have hlt' : i < initCount (A ++ b :: B) := by
    rw [← spans_length]
    exact (List.getElem?_eq_some_iff.mp hS').1
  have hm := hI.maps i S hS'
  refine ⟨?_, ?_, ?_⟩
  · dsimp only
    rw [hk, hg]
    exact hI.stored i hlt'
  · dsimp only
    rw [hK, hg]
    exact hm.1
  · dsimp only
    rw [hM, hg]
    exact hm.2

/-- A game with a world kill, followed by the `InitGame:` line of a second game with a kill
line. -/
theorem closed_games_witness :
    isInit (lit "InitGame:") = true
    ∧ ∃ rA rAB, parseLogFile oneKillLog = some rA
      ∧ parseLogFile (oneKillLog ++ lit "InitGame:" :: [worldKillLine]) = some rAB
      ∧ ∀ k g, rA.1.lookup k = some g →
        rAB.1.lookup k = some g ∧ rAB.2 g.Kills = rA.2 g.Kills
          ∧ rAB.2 g.KillsByMeans = rA.2 g.KillsByMeans :=
  ⟨by decide, closed_games oneKillLog [worldKillLine] (lit "InitGame:") (by decide)⟩

/-- C18: in a state with a current game, a line that contains `Kill:`, neither `InitGame:`
nor `ClientUserinfoChanged`, and splits at `: ` into fewer than 3 segments is processed
without panic and leaves the whole state as it was: the current game, every map and the
collection. -/
theorem short_kill_line (st : ParseState) (g : Game) (line : Str)
    (_hcur : st.currentGame = some g) (_hk : strings.Contains line (lit "Kill:") = true)
    (hi : isInit line = false) (hp : isPlayerInfo line = false)
    (hs : (strings.Split line (lit ": ")).length < 3) :
    processLine st line = some st := by
  have he : killEvent line = none := by
    have : ¬ 3 ≤ (strings.Split line (lit ": ")).length := by omega
    simp [killEvent, this]
  rw [processLine_eq, afterLine_inert st line hi (announced_eq_none_of_not_playerInfo line hp) he]

/-- A kill line with two segments, after one `InitGame:` line. -/
theorem short_kill_line_witness :
    (strings.Split twoSegmentKillLine (lit ": ")).length = 2
    ∧ processLine (initGame ParseState.init) twoSegmentKillLine
        = some (initGame ParseState.init) :=
  ⟨by decide,
    short_kill_line (initGame ParseState.init)
      { TotalKills := 0, Players := [], Kills := 0, KillsByMeans := 1 } twoSegmentKillLine
      rfl (by decide) (by decide) (by decide) (by decide)⟩

/-! ## The keys of the `Kills` map of a game -/

theorem player_kills_keys (v : GameView) (l : Str) (p : Str) :
    p ∈ (v.player l).Kills.keys
      ↔ p ∈ v.Kills.keys ∨ (announced l = some p ∧ p ∉ v.Players) := by
  unfold GameView.player
  cases ha : announced l with
  | none => simp
  | some q =>
    by_cases hc : contains v.Players q = true
    · have hq : q ∈ v.Players := (contains_iff_mem _ _).mp hc
      simp only [hc, if_true, Option.some.injEq]
      constructor
      · exact fun h => Or.inl h
      · rintro (h | ⟨h1, h2⟩)
        · exact h
        · exact absurd (h1 ▸ hq) h2
    · have hq : q ∉ v.Players := fun h => hc ((contains_iff_mem _ _).mpr h)
      simp only [hc, Bool.false_eq_true, if_false, Option.some.injEq]
      rw [← AList.mem_keys, AList.mem_insert, AList.mem_keys]
      constructor
      · rintro (h | h)
        · exact Or.inr ⟨h.symm, h ▸ hq⟩
        · exact Or.inl h
      · rintro (h | ⟨h1, _⟩)
        · exact Or.inr h
        · exact Or.inl h1.symm

theorem kill_kills_keys (v : GameView) (l : Str) (p : Str) :
    p ∈ (v.kill l).Kills.keys
      ↔ p ∈ v.Kills.keys ∨ attacksIn [l] p ∨ diesByWorldIn [l] p := by
  unfold GameView.kill attacksIn diesByWorldIn
  cases he : killEvent l with
  | none => simp [he]
  | some e =>
    by_cases hw : e.attacker = lit "<world>"
    · simp only [hw, if_true, List.mem_singleton, exists_eq_left, he, Option.some.injEq]
      rw [← AList.mem_keys, AList.mem_insert, AList.mem_keys]
      constructor
      · rintro (h | h)
        · exact Or.inr (Or.inr ⟨e, rfl, hw, h.symm⟩)
        · exact Or.inl h
      · rintro (h | ⟨e', rfl, h1, h2⟩ | ⟨e', rfl, _, h2⟩)
        · exact Or.inr h
        · exact absurd (h1.symm.trans hw) h2
        · exact Or.inl h2.symm
    · simp only [hw, if_false, List.mem_singleton, exists_eq_left, he, Option.some.injEq]
      rw [← AList.mem_keys, AList.mem_insert, AList.mem_keys]
      constructor
      · rintro (h | h)
        · exact Or.inr (Or.inl ⟨e, rfl, h.symm, fun hp => hw (h.symm.trans hp)⟩)
        · exact Or.inl h
      · rintro (h | ⟨e', rfl, h1, _⟩ | ⟨e', rfl, h1, _⟩)
        · exact Or.inr h
        · exact Or.inl h1.symm
        · exact absurd h1 hw

theorem attacksIn_append (L₁ L₂ : List Str) (p : Str) :
    attacksIn (L₁ ++ L₂) p ↔ attacksIn L₁ p ∨ attacksIn L₂ p := by
  unfold attacksIn
  constructor
  · rintro ⟨l, hl, h⟩
    rcases List.mem_append.mp hl with hl | hl
    · exact Or.inl ⟨l, hl, h⟩
    · exact Or.inr ⟨l, hl, h⟩
  · rintro (⟨l, hl, h⟩ | ⟨l, hl, h⟩)
    · exact ⟨l, List.mem_append_left _ hl, h⟩
    · exact ⟨l, List.mem_append_right _ hl, h⟩

theorem diesByWorldIn_append (L₁ L₂ : List Str) (p : Str) :
    diesByWorldIn (L₁ ++ L₂) p ↔ diesByWorldIn L₁ p ∨ diesByWorldIn L₂ p := by
  unfold diesByWorldIn
  constructor
  · rintro ⟨l, hl, h⟩
    rcases List.mem_append.mp hl with hl | hl
    · exact Or.inl ⟨l, hl, h⟩
    · exact Or.inr ⟨l, hl, h⟩
  · rintro (⟨l, hl, h⟩ | ⟨l, hl, h⟩)
    · exact ⟨l, List.mem_append_left _ hl, h⟩
    · exact ⟨l, List.mem_append_right _ hl, h⟩

theorem keys_step_prop (A B C a b c : Prop) :
    (((A ∨ B ∨ C) ∨ (a ∧ ¬ A)) ∨ b ∨ c) ↔ ((A ∨ a) ∨ (B ∨ b) ∨ (C ∨ c)) := by
  by_cases hA : A <;> tauto

theorem ofSpan_kills_keys (S : List Str) (p : Str) :
    p ∈ (GameView.ofSpan S).Kills.keys
      ↔ (∃ l ∈ S, announced l = some p) ∨ attacksIn S p ∨ diesByWorldIn S p := by
  induction S using List.reverseRecOn with
  | nil => simp [GameView.ofSpan, GameView.empty, attacksIn, diesByWorldIn]
  | append_singleton S l ih =>
    rw [ofSpan_append_singleton]
    unfold GameView.line
    rw [kill_kills_keys, player_kills_keys, ih, ofSpan_players_mem, attacksIn_append,
      diesByWorldIn_append]
    have hex : (∃ x ∈ S ++ [l], announced x = some p)
        ↔ (∃ x ∈ S, announced x = some p) ∨ announced l = some p := by
      constructor
      · rintro ⟨x, hx, h⟩
        rcases List.mem_append.mp hx with hx | hx
        · exact Or.inl ⟨x, hx, h⟩
        · exact Or.inr (by rw [List.mem_singleton] at hx; exact hx ▸ h)
      · rintro (⟨x, hx, h⟩ | h)
        · exact ⟨x, List.mem_append_left _ hx, h⟩
        · exact ⟨l, List.mem_append_right _ (List.mem_singleton.mpr rfl), h⟩
    rw [hex]
    exact keys_step_prop _ _ _ _ _ _

theorem attackCount_eq_zero (L : List Str) (p : Str) (h : ¬ attacksIn L p) :
    attackCount L p = 0 := by
  unfold attackCount
  rw [List.length_eq_zero, List.filter_eq_nil_iff]
  intro l hl hc
  apply h
  cases he : killEvent l with
  | none => simp [he] at hc
  | some e =>
    simp only [he, Option.any_some, decide_eq_true_eq] at hc
    exact ⟨l, hl, e, he, hc.1, fun hp => hc.2 (hc.1.trans hp)⟩

theorem worldDeathCount_eq_zero (L : List Str) (p : Str) (h : ¬ diesByWorldIn L p) :
    worldDeathCount L p = 0 := by
  unfold worldDeathCount
  rw [List.length_eq_zero, List.filter_eq_nil_iff]
  intro l hl hc
  apply h
  cases he : killEvent l with
  | none => simp [he] at hc
  | some e =>
    simp only [he, Option.any_some, decide_eq_true_eq] at hc
    exact ⟨l, hl, e, he, hc.1, hc.2⟩

theorem sinceAnnounced_subset (S : List Str) (p : Str) : sinceAnnounced S p ⊆ S := by
  unfold sinceAnnounced
  split
  · exact (List.dropWhile_suffix _).subset
  · exact fun _ h => h

theorem ofSpan_kills_get_of_no_kill (S : List Str) (p : Str) (ha : ¬ attacksIn S p)
    (hd : ¬ diesByWorldIn S p) : (GameView.ofSpan S).Kills.get p = 0 := by
  rw [ofSpan_kills_get, netKills,
    attackCount_eq_zero _ p (fun ⟨l, hl, h⟩ => ha ⟨l, sinceAnnounced_subset S p hl, h⟩),
    worldDeathCount_eq_zero _ p (fun ⟨l, hl, h⟩ => hd ⟨l, sinceAnnounced_subset S p hl, h⟩)]
  rfl

/-- C15, as stated, fails.  After `InitGame:`, the player-info line with a single backslash
`ClientUserinfoChanged: 2 n\Dono` makes `Dono` a key of the `Kills` map of `game_1`, although
the line has no text between a first and a second backslash and the span has no kill line. -/
theorem single_backslash_announces :
    spans singleBackslashLog = [singleBackslashLog]
    ∧ singleBackslashLog.map announcedBetween = [none, none]
    ∧ singleBackslashLog.map killEvent = [none, none]
    ∧ (parseLogFile singleBackslashLog).map
        (fun r => (r.1.lookup (gameName 1)).map (fun g => (r.2 g.Kills).pairs))
      = some (some [(lit "Dono", 0)]) := by
  decide

/-- C15, amended: for every sequence of lines and every game of the returned collection, the
keys of the game's `Kills` map are exactly the names that, within the game's span, are (a)
announced by a player-info line as its second field at the backslashes, not empty (the text
after the first backslash, up to the second backslash or else to the end of the line), or
(b) the attacker, other than `<world>`, of a successfully parsed kill line, or (c) the victim
of a successfully parsed kill line whose attacker is `<world>`; a name under (a) that takes
part in no kill under (b) or (c) has the value 0. -/
theorem kills_key_set (lines : List Str) :
    ∃ r, parseLogFile lines = some r ∧ ∀ k g, r.1.lookup k = some g →
      ∃ (i : Nat) (S : List Str), (spans lines)[i]? = some S ∧ k = gameName ((i : Int) + 1)
        ∧ (∀ p, p ∈ (r.2 g.Kills).keys
            ↔ (∃ l ∈ S, announced l = some p) ∨ attacksIn S p ∨ diesByWorldIn S p)
        ∧ (∀ p, (∃ l ∈ S, announced l = some p) → ¬ attacksIn S p → ¬ diesByWorldIn S p →
            (r.2 g.Kills).lookup p = some 0) := by
  refine ⟨_, parseLogFile_eq lines, ?_⟩
  intro k g h
  obtain ⟨i, S, hS, hk, -, hK, -⟩ := returned_game lines k g h
  refine ⟨i, S, hS, hk, ?_, ?_⟩
  · intro p
    dsimp only
    rw [hK, ofSpan_kills_keys]
  · intro p hp ha hd
    dsimp only
    rw [hK]
    have hkey : p ∈ (GameView.ofSpan S).Kills.keys :=
      (ofSpan_kills_keys S p).mpr (Or.inl hp)
    have hget := ofSpan_kills_get_of_no_kill S p ha hd
    rw [← AList.mem_keys, ← AList.lookup_isSome] at hkey
    cases hl : AList.lookup p (GameView.ofSpan S).Kills with
    | none => rw [hl] at hkey; cases hkey
    | some v =>
      simp only [GoMap.get, hl, Option.getD_some] at hget
      rw [hget]

end QuakeLog
